import Mathlib

/-!
Verification of the retrieval core of a local document question-answering
application (an Electron app backed by sql.js, FAISS vector stores and an
Ollama embedding/generation service).

The development shallowly embeds the JavaScript source:

* `src/database.js` — the sql.js-backed structured store (documents, chunks
  and the graph tables), modelled by the `DB` structure and the operations
  on it.  Declared `ON DELETE CASCADE` foreign keys of the schema are
  modelled by performing the cascading deletions explicitly.
* `src/preload.js` — the coordination layer (ingest, deletion, embedding
  model switching, the retrieval strategies), modelled by the `Sys`
  structure: the database plus the in-memory and on-disk FAISS stores and
  the active embedding model.
* `src/renderer.js` (the GraphRAG ontology and extractor sections) — the
  extraction validation pipeline.

External services (the embedding HTTP endpoint, the generation model, the
FAISS similarity search) are modelled as parameters: a search result list,
an extraction oracle, or a plain reply string.  JavaScript strings are
modelled as `List Char` (type `JStr`) so that every operation is
structurally recursive and concrete states evaluate by `decide`;
JavaScript `undefined`/missing string fields are modelled by `Option` or by
the empty string where the code only tests truthiness.
-/

/-! ## Strings as character lists -/

/-- JavaScript strings are modelled as lists of characters. -/
abbrev JStr := List Char

/-- Embed a Lean string literal into the model. -/
def str (s : String) : JStr := s.data

/-- Lowercasing, as in `String.prototype.toLowerCase` (modelled for the
ASCII range, which also matches the ASCII-only `LOWER` of SQLite). -/
def jsToLower (s : JStr) : JStr := s.map Char.toLower

/-- `String.prototype.trim`: strip leading and trailing whitespace. -/
def jsTrim (s : JStr) : JStr :=
  ((s.dropWhile Char.isWhitespace).reverse.dropWhile Char.isWhitespace).reverse

/-- Split on whitespace runs, yielding the maximal non-whitespace runs in
order.  This is JavaScript `str.split(/\s+/)` minus the single empty token
that JavaScript yields for a string with leading whitespace; every use in
the modelled code filters such empty tokens out immediately afterwards. -/
def splitWsAux : JStr → JStr → List JStr
  | [], acc => if acc = [] then [] else [acc.reverse]
  | c :: cs, acc =>
    if c.isWhitespace then
      (if acc = [] then splitWsAux cs [] else acc.reverse :: splitWsAux cs [])
    else splitWsAux cs (c :: acc)

/-- Whitespace tokens of a string (maximal non-whitespace runs). -/
def splitWs (s : JStr) : List JStr := splitWsAux s []

/-- Join a list of strings with single spaces (`Array.prototype.join(' ')`). -/
def joinSpace : List JStr → JStr
  | [] => []
  | [w] => w
  | w :: ws => w ++ ' ' :: joinSpace ws

/-! ## Generic list helpers (JavaScript `Set` insertion order) -/

/-- First-occurrence deduplication with an explicit seen accumulator.  This
is the order produced by inserting elements into a JavaScript `Set` and
reading the set back in insertion order, and also by
`arr.filter((w, i) => arr.indexOf(w) === i)`. -/

def dedupFirstAux [DecidableEq α] : List α → List α → List α
  | [], _ => []
  | w :: ws, seen => if w ∈ seen then dedupFirstAux ws seen else w :: dedupFirstAux ws (w :: seen)

/-- First-occurrence deduplication of a list. -/
def dedupFirst [DecidableEq α] (l : List α) : List α := dedupFirstAux l []

/-! ## C7 — fulltext-mode query rewriting (`rewriteQueryWithLLM`, preload.js 917-997)

The LLM call itself is external; the function below models the
deterministic post-processing of a non-empty model reply `reply`
(`data.response`), exactly as in the source:

```js
let rewrittenQuery = data.response ? data.response.trim() : '';
...
if (!rewrittenQuery || rewrittenQuery.length < 3) return query;
const keywords = rewrittenQuery.toLowerCase()
  .split(/\s+/)
  .filter(word => word.length >= 3)
  .filter((word, index, arr) => arr.indexOf(word) === index);
const cleanedQuery = keywords.join(' ');
return cleanedQuery;
```
-/

/-- The keyword cleanup stage of `rewriteQueryWithLLM`: lowercase, split on
whitespace, drop tokens shorter than 3 characters, deduplicate keeping the
first occurrences. -/

def rewriteKeywords (reply : JStr) : List JStr :=
  dedupFirst ((splitWs (jsToLower reply)).filter (fun w => 3 ≤ w.length))

/-- Deterministic core of `rewriteQueryWithLLM` given the original `query`
and the raw model reply `reply`.  The fallback to the original query is
decided on the raw trimmed reply
(`!rewrittenQuery || rewrittenQuery.length < 3`), before the keyword
cleanup runs. -/
def rewriteQueryWithLLM (query reply : JStr) : JStr :=
  let rewritten := jsTrim reply
  if rewritten.length < 3 then query
  else joinSpace (rewriteKeywords rewritten)

/-! ## Data model — the sql.js store (`database.js`, `createTables`)

Row types mirror the schema of `createTables` (database.js 60-167).  Tables
are lists of rows in rowid (insertion) order; `AUTOINCREMENT` surrogate keys
are modelled by per-table counters.  `REAL` columns hold rationals. -/

structure DocumentRow where
  id : Nat
  source : JStr
  embedding_model : JStr
deriving DecidableEq

structure ChunkRow where
  id : Nat
  document_id : Nat
  chunk_index : Nat
  page : Option Nat
  content : JStr
deriving DecidableEq

structure EntityRow where
  id : Nat
  name : JStr
  etype : JStr
  description : Option JStr
deriving DecidableEq

structure RelationshipRow where
  id : Nat
  source_entity_id : Nat
  target_entity_id : Nat
  relationship_type : JStr
  description : Option JStr
  weight : Rat
deriving DecidableEq

structure EntityMentionRow where
  id : Nat
  entity_id : Nat
  chunk_id : Nat
  mention_text : Option JStr
  confidence : Rat
deriving DecidableEq

structure RelationshipMentionRow where
  id : Nat
  relationship_id : Nat
  chunk_id : Nat
  context : Option JStr
  confidence : Rat
deriving DecidableEq

structure EntityEmbeddingRow where
  id : Nat
  entity_id : Nat
  embedding_model : JStr
  dimension : Nat
deriving DecidableEq

structure DB where
  documents : List DocumentRow
  chunks : List ChunkRow
  entities : List EntityRow
  relationships : List RelationshipRow
  entity_mentions : List EntityMentionRow
  relationship_mentions : List RelationshipMentionRow
  entity_embeddings : List EntityEmbeddingRow
  nextDocumentId : Nat
  nextChunkId : Nat
  nextEntityId : Nat
  nextRelationshipId : Nat
  nextEntityMentionId : Nat
  nextRelationshipMentionId : Nat
  nextEntityEmbeddingId : Nat
deriving DecidableEq

/-! ## C5 — keyword search (`fullTextSearch`, database.js 381-446)

The SQL filter is `LOWER(c.content) LIKE '%kw%'`, so the candidate test is
genuine SQL `LIKE` pattern matching (`%` matches any sequence, `_` any
single character, no escape clause); the subsequent scoring counts literal
non-overlapping regex matches of the escaped keyword.  Both are modelled
below.  The `LIMIT` parameter of the SQL query is `limit * 3`. -/

/-- SQL `LIKE` matching on already-lowercased operands, with fuel (each
step shortens the pattern or the text, so `pattern + text + 1` steps
suffice). -/

def likeMatchesFuel : Nat → JStr → JStr → Bool
  | 0, _, _ => false
  | _ + 1, [], t => t.isEmpty
  | f + 1, '%' :: ps, t =>
    likeMatchesFuel f ps t ||
      (match t with
       | [] => false
       | _ :: ts => likeMatchesFuel f ('%' :: ps) ts)
  | f + 1, '_' :: ps, t =>
    (match t with
     | [] => false
     | _ :: ts => likeMatchesFuel f ps ts)
  | f + 1, p :: ps, t =>
    (match t with
     | [] => false
     | c :: ts => p == c && likeMatchesFuel f ps ts)

/-- SQL `LIKE` pattern matching. -/
def likeMatches (pattern text : JStr) : Bool :=
  likeMatchesFuel (pattern.length + text.length + 1) pattern text

/-- The candidate condition `LOWER(content) LIKE '%kw%'` for one keyword. -/
def likeContains (kw contentLower : JStr) : Bool :=
  likeMatches ('%' :: (kw ++ ['%'])) contentLower

/-- Number of non-overlapping occurrences of `needle` in `hay`, scanning
left to right: the match count of a global regex of the escaped keyword, as
in the scoring loop of `fullTextSearch`. -/
def countOccurFuel (needle : JStr) : Nat → JStr → Nat
  | 0, _ => 0
  | f + 1, hay =>
    match hay with
    | [] => 0
    | c :: cs =>
      if needle.isPrefixOf (c :: cs) then
        countOccurFuel needle f (cs.drop (needle.length - 1)) + 1
      else countOccurFuel needle f cs

/-- Non-overlapping occurrence count of `needle` in `hay`. -/
def countOccur (needle hay : JStr) : Nat := countOccurFuel needle hay.length hay

/-- `hay` contains `needle` as a (contiguous) substring. -/
def containsSub (hay needle : JStr) : Bool := decide (0 < countOccur needle hay)

/-- The keyword list of `fullTextSearch`:
`query.toLowerCase().trim().split(/\s+/).filter(k => k.length > 0)`. -/
def ftsKeywords (query : JStr) : List JStr := splitWs (jsTrim (jsToLower query))

/-- One result row of `fullTextSearch` (`SELECT c.*, d.source,
d.embedding_model` plus the computed score). -/
structure FtsRow where
  id : Nat
  document_id : Nat
  chunk_index : Nat
  page : Option Nat
  content : JStr
  source : JStr
  embedding_model : JStr
  score : Nat
deriving DecidableEq

/-- The SQL candidate query of `fullTextSearch`: chunks joined with their
document, kept when any keyword LIKE-matches the lowercased content,
truncated to `limit * 3` rows.  The table scan yields rows in rowid order,
i.e. in the order of the `chunks` list. -/
def ftsCandidates (db : DB) (keywords : List JStr) (limit : Nat) : List FtsRow :=
  (db.chunks.filterMap (fun c =>
    match db.documents.find? (fun d => d.id == c.document_id) with
    | none => none
    | some d =>
      if keywords.any (fun kw => likeContains kw (jsToLower c.content)) then
        some ⟨c.id, c.document_id, c.chunk_index, c.page, c.content, d.source,
              d.embedding_model, 0⟩
      else none)).take (limit * 3)

/-- The scoring step: total non-overlapping occurrence count of all
keywords in the lowercased content. -/
def ftsScore (keywords : List JStr) (content : JStr) : Nat :=
  (keywords.map (fun kw => countOccur kw (jsToLower content))).sum

/-- Attach the score to a candidate row. -/
def scoreRow (keywords : List JStr) (r : FtsRow) : FtsRow :=
  { r with score := ftsScore keywords r.content }

/-- Stable descending insertion by score: the unique result of the stable
`rows.sort((a, b) => b.score - a.score)` of ECMAScript. -/
def insertByScore (x : FtsRow) : List FtsRow → List FtsRow
  | [] => [x]
  | y :: ys => if x.score < y.score then y :: insertByScore x ys else x :: y :: ys

/-- Stable sort by descending score. -/
def sortByScoreDesc : List FtsRow → List FtsRow
  | [] => []
  | x :: xs => insertByScore x (sortByScoreDesc xs)

/-- `fullTextSearch(query, limit)` of database.js: tokenize, return empty
on no keywords, collect at most `limit * 3` LIKE-matching candidates, score
them, sort by descending score (stable) and return the first `limit`. -/
def fullTextSearch (db : DB) (query : JStr) (limit : Nat) : List FtsRow :=
  let keywords := ftsKeywords query
  if keywords = [] then []
  else (sortByScoreDesc ((ftsCandidates db keywords limit).map (scoreRow keywords))).take limit

/-- The ordering the claim asserts for fulltext results: strictly greater
score first, ties by ascending chunk id. -/
def FtsBefore (a b : FtsRow) : Prop :=
  b.score < a.score ∨ (a.score = b.score ∧ a.id < b.id)

/-- The empty database with counters at 1 (fresh sql.js AUTOINCREMENT). -/
def DB.empty : DB := ⟨[], [], [], [], [], [], [], 1, 1, 1, 1, 1, 1, 1⟩

/-- A store holding one document whose single chunk has content `"ab"`. -/
def dbC5 : DB :=
  { DB.empty with
    documents := [⟨1, str "a.txt", str "m"⟩],
    chunks := [⟨1, 1, 0, none, str "ab"⟩],
    nextDocumentId := 2,
    nextChunkId := 2 }

/-! ## Search results and the hybrid merge (`searchFromStoreHybrid`, preload.js 1034-1075)

A search result as handled by the retrieval engine: the chunk text, the
source path from its metadata, and the SQLite chunk id when present.  The
embedding and fulltext sub-searches call external services (FAISS, the
rewriting LLM), so the merge is modelled as a function of the two result
lists; `searchFromStoreEmbedding(query, k)` returns at most `k` results
(`similaritySearch(query, k)`), which the caller supplies as a hypothesis. -/

structure SearchResult where
  pageContent : JStr
  source : JStr
  chunk_id : Option Nat
deriving DecidableEq

/-- The deduplication key of the hybrid merge:
`` `${result.metadata.source}-${result.pageContent.substring(0, 50)}` ``. -/
def hybridKey (r : SearchResult) : JStr :=
  r.source ++ '-' :: r.pageContent.take 50

/-- First merge loop: embedding results, deduplicated by key.  Returns the
kept results and the final seen-set. -/
def mergeEmb : List SearchResult → List JStr → List SearchResult × List JStr
  | [], seen => ([], seen)
  | r :: rs, seen =>
    if hybridKey r ∈ seen then mergeEmb rs seen
    else
      let p := mergeEmb rs (hybridKey r :: seen)
      (r :: p.1, p.2)

/-- Second merge loop: fulltext results are appended while their key is
unseen and the merged length is still below `k * 2`. -/
def mergeFt (k : Nat) : List SearchResult → List JStr → Nat → List SearchResult
  | [], _, _ => []
  | r :: rs, seen, len =>
    if hybridKey r ∉ seen ∧ len < k * 2 then
      r :: mergeFt k rs (hybridKey r :: seen) (len + 1)
    else mergeFt k rs seen len

/-- The merged result list of the hybrid search before the final cut. -/
def hybridMerged (emb ft : List SearchResult) (k : Nat) : List SearchResult :=
  let p := mergeEmb emb []
  p.1 ++ mergeFt k ft p.2 p.1.length

/-- `searchFromStoreHybrid`: merge the two sub-search result lists and
return the first `k` merged results. -/
def searchFromStoreHybrid (emb ft : List SearchResult) (k : Nat) : List SearchResult :=
  (hybridMerged emb ft k).take k

/-! ## C10 — the unified search (`searchFromStore`, preload.js 1089-1182)

The chunk-RAG sub-search (embedding / fulltext / hybrid) and the GraphRAG
sub-search call external services, so the final deduplication stage is
modelled as a function of the two result lists, concatenated in the order
of the source (`allResults = chunkResults ++ graphChunks`).  Results with a
chunk id are kept on first occurrence of that id; results without a chunk
id are always kept.  The function returns `deduplicatedResults.slice(0, k * 2)`. -/

/-- The deduplication loop of `searchFromStore` with its seen-set of chunk
ids. -/

def dedupByChunkId : List SearchResult → List Nat → List SearchResult
  | [], _ => []
  | r :: rs, seen =>
    match r.chunk_id with
    | some cid =>
      if cid ∈ seen then dedupByChunkId rs seen
      else r :: dedupByChunkId rs (cid :: seen)
    | none => r :: dedupByChunkId rs seen

/-- `searchFromStore`: concatenate the chunk-RAG and GraphRAG results,
deduplicate by chunk id, and return up to `k * 2` results. -/
def searchFromStore (chunkResults graphResults : List SearchResult) (k : Nat) :
    List SearchResult :=
  (dedupByChunkId (chunkResults ++ graphResults) []).take (k * 2)

/-! ## C8 — extraction validation (`parseExtractionResult` and
`isValidRelationship`, renderer.js 1108-1126 and 1294-1444)

The JSON repair cascade operates on raw LLM text and is outside this model;
the claim concerns the validation of the parsed `entities` and
`relationships` arrays, which is modelled here on already-parsed records.
A missing JavaScript field (`!entity.name`) is modelled by the empty
string; descriptions are optional and not validated. -/

/-- The closed entity-type ontology (`ENTITY_TYPES`, renderer.js). -/

def ENTITY_TYPES : List JStr :=
  [str "PERSON", str "TOPIC", str "RESEARCH_METHOD", str "PAPER", str "CONCEPT",
   str "ORGANIZATION", str "DATASET"]

/-- The closed relationship-type ontology (`RELATIONSHIP_TYPES`). -/
def RELATIONSHIP_TYPES : List JStr :=
  [str "AUTHORED", str "AFFILIATED_WITH", str "CITES", str "ABOUT", str "STUDIES",
   str "USES_METHOD", str "USES_DATASET", str "BASED_ON", str "EXTENDS",
   str "CONTRADICTS", str "PROPOSES", str "RELATED_TO"]

/-- `VALID_RELATIONSHIP_PATTERNS`: the allowed source-type and target-type
sets per relationship type. -/
def VALID_RELATIONSHIP_PATTERNS (rtype : JStr) : Option (List JStr × List JStr) :=
  if rtype = str "AUTHORED" then some ([str "PERSON"], [str "PAPER"])
  else if rtype = str "AFFILIATED_WITH" then some ([str "PERSON"], [str "ORGANIZATION"])
  else if rtype = str "CITES" then some ([str "PAPER"], [str "PAPER"])
  else if rtype = str "ABOUT" then some ([str "PAPER"], [str "TOPIC"])
  else if rtype = str "STUDIES" then some ([str "PAPER"], [str "TOPIC"])
  else if rtype = str "USES_METHOD" then some ([str "PAPER"], [str "RESEARCH_METHOD"])
  else if rtype = str "USES_DATASET" then some ([str "PAPER"], [str "DATASET"])
  else if rtype = str "BASED_ON" then
    some ([str "CONCEPT", str "RESEARCH_METHOD"], [str "CONCEPT"])
  else if rtype = str "EXTENDS" then
    some ([str "CONCEPT", str "RESEARCH_METHOD"], [str "CONCEPT", str "RESEARCH_METHOD"])
  else if rtype = str "CONTRADICTS" then some ([str "CONCEPT"], [str "CONCEPT"])
  else if rtype = str "PROPOSES" then
    some ([str "PERSON", str "PAPER"], [str "CONCEPT", str "RESEARCH_METHOD"])
  else if rtype = str "RELATED_TO" then some (ENTITY_TYPES, ENTITY_TYPES)
  else none

/-- `isValidRelationship(relationshipType, sourceEntityType, targetEntityType)`:
unknown relationship types fail; otherwise both entity types must belong to
the pattern sets. -/
def isValidRelationship (relationshipType sourceEntityType targetEntityType : JStr) : Bool :=
  match VALID_RELATIONSHIP_PATTERNS relationshipType with
  | none => false
  | some p => sourceEntityType ∈ p.1 && targetEntityType ∈ p.2

/-- A parsed entity record from the LLM output. -/
structure ExtractedEntity where
  name : JStr
  etype : JStr
  description : Option JStr
deriving DecidableEq

/-- A parsed relationship record from the LLM output. -/
structure ExtractedRelationship where
  source : JStr
  target : JStr
  rtype : JStr
  description : Option JStr
deriving DecidableEq

/-- The entity filter of `parseExtractionResult`: a name must be present
(non-empty) and the type must be in the closed ontology (the separate
`!entity.type` truthiness test is subsumed, since every ontology member is
non-empty). -/
def validEntitiesOf (es : List ExtractedEntity) : List ExtractedEntity :=
  es.filter (fun e => e.name ≠ [] && e.etype ∈ ENTITY_TYPES)

/-- The `entityMap` of `parseExtractionResult`: `Map.set` is applied over
the valid entities in order, so a lookup returns the type of the last valid
entity with the given name. -/
def entityTypeLookup (es : List ExtractedEntity) (n : JStr) : Option JStr :=
  ((validEntitiesOf es).reverse.find? (fun e => e.name == n)).map (fun e => e.etype)

/-- The endpoint-resolution-and-pattern check of the relationship filter:
both endpoint names must resolve in the entity map and the resolved type
pair must be permitted. -/
def relLookupValid (es : List ExtractedEntity) (r : ExtractedRelationship) : Bool :=
  match entityTypeLookup es r.source, entityTypeLookup es r.target with
  | some st, some tt => isValidRelationship r.rtype st tt
  | _, _ => false

/-- The relationship filter of `parseExtractionResult`: source, target and
type present, type in the ontology, both endpoint names resolvable in the
entity map, and the type pair permitted by `isValidRelationship`. -/
def validRelationshipsOf (es : List ExtractedEntity) (rs : List ExtractedRelationship) :
    List ExtractedRelationship :=
  rs.filter (fun r =>
    r.source ≠ [] && r.target ≠ [] && r.rtype ≠ [] &&
    r.rtype ∈ RELATIONSHIP_TYPES && relLookupValid es r)

/-- The validation phase of `parseExtractionResult` on the parsed arrays:
the valid entities and the valid relationships, everything else silently
dropped. -/
def parseExtractionResult (es : List ExtractedEntity) (rs : List ExtractedRelationship) :
    List ExtractedEntity × List ExtractedRelationship :=
  (validEntitiesOf es, validRelationshipsOf es rs)

/-! ## The structured store operations (`database.js`)

Deletions honour the `ON DELETE CASCADE` clauses declared by `createTables`:
deleting documents cascades to their chunks, deleting chunks cascades to
entity and relationship mentions, deleting entities cascades to
relationships (either endpoint) and entity embeddings, and deleting
relationships cascades to relationship mentions. -/

/-- JavaScript truthiness of an optional string parameter. -/

def jsTruthy : Option JStr → Bool
  | none => false
  | some d => d ≠ []

/-- `DELETE FROM chunks WHERE document_id = ?`, cascading to the mentions
of the deleted chunks. -/
def deleteChunksByDocumentId (db : DB) (documentId : Nat) : DB :=
  let gone := fun (cid : Nat) => db.chunks.any (fun c => c.document_id == documentId && c.id == cid)
  { db with
    chunks := db.chunks.filter (fun c => !(c.document_id == documentId)),
    entity_mentions := db.entity_mentions.filter (fun m => !(gone m.chunk_id)),
    relationship_mentions := db.relationship_mentions.filter (fun m => !(gone m.chunk_id)) }

/-- The result of `insertDocument`: the document id and whether the
`(source, embedding_model)` pair already existed. -/
structure InsertDocResult where
  id : Nat
  existed : Bool
deriving DecidableEq

/-- `insertDocument(source, embeddingModel)`: insert a fresh row, or — on
the UNIQUE(source, embedding_model) violation — return the existing id
after deleting its chunks. -/
def insertDocument (db : DB) (source embeddingModel : JStr) : InsertDocResult × DB :=
  match db.documents.find? (fun d => d.source == source && d.embedding_model == embeddingModel) with
  | some d => (⟨d.id, true⟩, deleteChunksByDocumentId db d.id)
  | none =>
    (⟨db.nextDocumentId, false⟩,
     { db with
       documents := db.documents ++ [⟨db.nextDocumentId, source, embeddingModel⟩],
       nextDocumentId := db.nextDocumentId + 1 })

/-- `insertChunk(documentId, chunkIndex, content, page)`. -/
def insertChunk (db : DB) (documentId chunkIndex : Nat) (content : JStr) (page : Option Nat) :
    Nat × DB :=
  (db.nextChunkId,
   { db with
     chunks := db.chunks ++ [⟨db.nextChunkId, documentId, chunkIndex, page, content⟩],
     nextChunkId := db.nextChunkId + 1 })

/-- `getStoredSources()` of database.js: sources grouped with their
distinct embedding models (`GROUP_CONCAT(DISTINCT embedding_model)`),
groups in first-occurrence order. -/
def DB.getStoredSources (db : DB) : List (JStr × List JStr) :=
  (dedupFirst (db.documents.map (fun d => d.source))).map (fun s =>
    (s, dedupFirst ((db.documents.filter (fun d => d.source == s)).map
      (fun d => d.embedding_model))))

/-- `getDocumentIdsBySource(sourcePath)`. -/
def getDocumentIdsBySource (db : DB) (sourcePath : JStr) : List Nat :=
  (db.documents.filter (fun d => d.source == sourcePath)).map (fun d => d.id)

/-- `getChunkIdsByDocumentIds(documentIds)`. -/
def getChunkIdsByDocumentIds (db : DB) (documentIds : List Nat) : List Nat :=
  (db.chunks.filter (fun c => documentIds.contains c.document_id)).map (fun c => c.id)

/-- `deleteDocumentBySource(sourcePath)`: delete the document rows and, by
cascade, their chunks and the mentions of those chunks. -/
def deleteDocumentBySource (db : DB) (sourcePath : JStr) : DB :=
  let docGone := fun (did : Nat) => db.documents.any (fun d => d.source == sourcePath && d.id == did)
  let chunkGone := fun (cid : Nat) => db.chunks.any (fun c => docGone c.document_id && c.id == cid)
  { db with
    documents := db.documents.filter (fun d => !(d.source == sourcePath)),
    chunks := db.chunks.filter (fun c => !(docGone c.document_id)),
    entity_mentions := db.entity_mentions.filter (fun m => !(chunkGone m.chunk_id)),
    relationship_mentions := db.relationship_mentions.filter (fun m => !(chunkGone m.chunk_id)) }

/-- Stable ascending insertion by `chunk_index` (the unique stable
realization of `ORDER BY c.chunk_index` over the rowid scan). -/
def insertByChunkIndex (x : ChunkRow) : List ChunkRow → List ChunkRow
  | [] => [x]
  | y :: ys => if y.chunk_index < x.chunk_index then y :: insertByChunkIndex x ys else x :: y :: ys

/-- Stable sort by ascending `chunk_index`. -/
def sortByChunkIndex : List ChunkRow → List ChunkRow
  | [] => []
  | x :: xs => insertByChunkIndex x (sortByChunkIndex xs)

/-- `getChunksByDocumentId(documentId)`: the chunks of the document (the
join requires the document row to exist) ordered by `chunk_index`. -/
def getChunksByDocumentId (db : DB) (documentId : Nat) : List ChunkRow :=
  if db.documents.any (fun d => d.id == documentId) then
    sortByChunkIndex (db.chunks.filter (fun c => c.document_id == documentId))
  else []

/-- `cleanupOrphanedGraphData()`: delete entities with no entity mention
(cascading to relationships with a deleted endpoint, their mentions, and
entity embeddings), then delete relationships with no remaining
relationship mention (cascading to their mentions). -/
def cleanupOrphanedGraphData (db : DB) : DB :=
  let entHasMention := fun (eid : Nat) => db.entity_mentions.any (fun m => m.entity_id == eid)
  let entDeleted := fun (eid : Nat) => db.entities.any (fun e => e.id == eid && !(entHasMention eid))
  let entities1 := db.entities.filter (fun e => entHasMention e.id)
  let em1 := db.entity_mentions.filter (fun m => !(entDeleted m.entity_id))
  let ee1 := db.entity_embeddings.filter (fun x => !(entDeleted x.entity_id))
  let relDeleted1 := fun (rid : Nat) => db.relationships.any (fun r =>
    r.id == rid && (entDeleted r.source_entity_id || entDeleted r.target_entity_id))
  let rels1 := db.relationships.filter (fun r =>
    !(entDeleted r.source_entity_id) && !(entDeleted r.target_entity_id))
  let rm1 := db.relationship_mentions.filter (fun m => !(relDeleted1 m.relationship_id))
  let relHasMention := fun (rid : Nat) => rm1.any (fun m => m.relationship_id == rid)
  let relDeleted2 := fun (rid : Nat) => rels1.any (fun r => r.id == rid && !(relHasMention rid))
  let rels2 := rels1.filter (fun r => relHasMention r.id)
  let rm2 := rm1.filter (fun m => !(relDeleted2 m.relationship_id))
  { db with
    entities := entities1,
    relationships := rels2,
    entity_mentions := em1,
    relationship_mentions := rm2,
    entity_embeddings := ee1 }

/-- `insertEntity(name, type, description)`: insert, or on the
UNIQUE(name, type) violation return the existing id, updating the
description when one is provided (truthy). -/
def insertEntity (db : DB) (name etype : JStr) (description : Option JStr) : Nat × DB :=
  match db.entities.find? (fun e => e.name == name && e.etype == etype) with
  | some e =>
    (e.id,
     if jsTruthy description then
       { db with entities := db.entities.map (fun x =>
           if x.id == e.id then { x with description := description } else x) }
     else db)
  | none =>
    (db.nextEntityId,
     { db with
       entities := db.entities ++ [⟨db.nextEntityId, name, etype, description⟩],
       nextEntityId := db.nextEntityId + 1 })

/-- `insertRelationship(src, tgt, type, description, weight)`: insert, or
on the UNIQUE(source, target, type) violation return the existing id,
running the COALESCE update when the description is truthy or the weight
differs from 1.0. -/
def insertRelationship (db : DB) (sourceEntityId targetEntityId : Nat)
    (relationshipType : JStr) (description : Option JStr) (weight : Rat) : Nat × DB :=
  match db.relationships.find? (fun r =>
      r.source_entity_id == sourceEntityId && r.target_entity_id == targetEntityId &&
      r.relationship_type == relationshipType) with
  | some r =>
    (r.id,
     if jsTruthy description = true ∨ weight ≠ 1 then
       { db with relationships := db.relationships.map (fun x =>
           if x.id == r.id then
             { x with
               description := (match description with | some d => some d | none => x.description),
               weight := weight }
           else x) }
     else db)
  | none =>
    (db.nextRelationshipId,
     { db with
       relationships := db.relationships ++
         [⟨db.nextRelationshipId, sourceEntityId, targetEntityId, relationshipType,
           description, weight⟩],
       nextRelationshipId := db.nextRelationshipId + 1 })

/-- `insertEntityMention(entityId, chunkId, mentionText, confidence)`:
`none` on the UNIQUE(entity_id, chunk_id) violation. -/
def insertEntityMention (db : DB) (entityId chunkId : Nat) (mentionText : Option JStr)
    (confidence : Rat) : Option Nat × DB :=
  if db.entity_mentions.any (fun m => m.entity_id == entityId && m.chunk_id == chunkId) then
    (none, db)
  else
    (some db.nextEntityMentionId,
     { db with
       entity_mentions := db.entity_mentions ++
         [⟨db.nextEntityMentionId, entityId, chunkId, mentionText, confidence⟩],
       nextEntityMentionId := db.nextEntityMentionId + 1 })

/-- `insertRelationshipMention(relationshipId, chunkId, context,
confidence)`: `none` on the UNIQUE(relationship_id, chunk_id) violation. -/
def insertRelationshipMention (db : DB) (relationshipId chunkId : Nat) (context : Option JStr)
    (confidence : Rat) : Option Nat × DB :=
  if db.relationship_mentions.any (fun m =>
      m.relationship_id == relationshipId && m.chunk_id == chunkId) then
    (none, db)
  else
    (some db.nextRelationshipMentionId,
     { db with
       relationship_mentions := db.relationship_mentions ++
         [⟨db.nextRelationshipMentionId, relationshipId, chunkId, context, confidence⟩],
       nextRelationshipMentionId := db.nextRelationshipMentionId + 1 })

/-! ## The coordination layer (`preload.js`)

`Sys` is the process state of the preload module: the sql.js database, the
`embedder.model` name, the in-memory chunk and entity FAISS stores, and
their on-disk copies (`faiss_store` and `entity_faiss_store`; `none` means
the directory does not exist).  FAISS indices are modelled by the metadata
documents they hold; the vectors themselves live in the external embedding
service and carry no information the modelled operations read. -/

/-- A document stored in the chunk FAISS index: page content plus the
metadata attached by ingest (`source`, `embeddingModel`, `chunk_id`,
`page`). -/

structure VecDoc where
  pageContent : JStr
  source : JStr
  embeddingModel : JStr
  chunk_id : Option Nat
  page : Option Nat
deriving DecidableEq

/-- A document stored in the entity FAISS index
(`generateEntityEmbeddings`). -/
structure EntityVecDoc where
  pageContent : JStr
  entity_id : Nat
  entity_name : JStr
  entity_type : JStr
  embedding_model : JStr
deriving DecidableEq

structure Sys where
  db : DB
  activeModel : JStr
  vectorStore : Option (List VecDoc)
  chunkDisk : Option (List VecDoc)
  entityVectorStore : Option (List EntityVecDoc)
  entityDisk : Option (List EntityVecDoc)
deriving DecidableEq

/-- `normalizeModelName(name)`: strip one trailing `:latest` tag. -/
def normalizeModelName (name : JStr) : JStr :=
  if (str ":latest").isSuffixOf name then name.take (name.length - 7) else name

/-- `getExistingModels()`: the distinct truthy `embeddingModel` metadata
values over all documents of the loaded chunk vector store (`[]` when no
store is loaded).  The enumeration uses `similaritySearch('', 9999)`, whose
9999-result cap is not modelled (it binds only beyond 9999 stored
vectors). -/
def getExistingModels (s : Sys) : List JStr :=
  match s.vectorStore with
  | none => []
  | some docs => dedupFirst ((docs.map (fun d => d.embeddingModel)).filter (fun m => m ≠ []))

/-- The outcome of `setEmbedderModel`: `{success: true}`, or the
`{success: false, existingModels, newModel}` confirmation request. -/
inductive SetModelResult where
  | success
  | confirmationRequired (existingModels : List JStr) (newModel : JStr)
deriving DecidableEq

/-- `setEmbedderModel(name, force)`:

1. if the normalized names match and `force` is false, return success
   without touching state;
2. if `force` is false and the existing models are non-empty and do not
   contain `name`, return the confirmation request without touching state;
3. otherwise set the embedder, reset the chunk vector store in memory and
   on disk, and clear the `chunks` and `documents` tables (cascading to the
   mentions of the deleted chunks).  The entity vector store and the graph
   tables are not touched and `cleanupOrphanedGraphData` is not called. -/
def setEmbedderModel (s : Sys) (name : JStr) (force : Bool) : SetModelResult × Sys :=
  if normalizeModelName s.activeModel = normalizeModelName name ∧ force = false then
    (.success, s)
  else if force = false ∧ getExistingModels s ≠ [] ∧ name ∉ getExistingModels s then
    (.confirmationRequired (getExistingModels s) name, s)
  else
    let chunkExisted := fun (cid : Nat) => s.db.chunks.any (fun c => c.id == cid)
    (.success,
     { s with
       activeModel := name,
       vectorStore := none,
       chunkDisk := none,
       db := { s.db with
         chunks := [],
         documents := [],
         entity_mentions := s.db.entity_mentions.filter (fun m => !(chunkExisted m.chunk_id)),
         relationship_mentions :=
           s.db.relationship_mentions.filter (fun m => !(chunkExisted m.chunk_id)) } })

/-- The list returned by `getStoredSources()` of preload.js: when no store
is loaded but one exists on disk, a failing load with a dimension mismatch
makes the function clear both stores and return `[]`; in every other case
it returns the grouped rows of the documents table.  (Only the returned
value is modelled; `dimMismatchOnLoad` is the environment condition of the
failing load.) -/
def getStoredSourcesPreload (s : Sys) (dimMismatchOnLoad : Bool) : List (JStr × List JStr) :=
  if s.vectorStore = none ∧ s.chunkDisk ≠ none ∧ dimMismatchOnLoad = true then []
  else s.db.getStoredSources

/-- One chunk produced by `readAndSplit`, as passed to
`saveChunksToFaiss`: the text plus its `source`, optional `page` and
`embeddingModel` metadata. -/
structure IngestChunk where
  pageContent : JStr
  source : JStr
  page : Option Nat
  embeddingModel : JStr
deriving DecidableEq

/-- The chunk insertion loop of `saveChunksToFaiss`
(`insertChunk(docId, i, content, page)` for i = 0, 1, ...), returning the
collected chunk ids. -/
def insertChunksLoop (docId : Nat) : List IngestChunk → DB → Nat → List Nat × DB
  | [], db, _ => ([], db)
  | c :: cs, db, i =>
    let p := insertChunk db docId i c.pageContent c.page
    let q := insertChunksLoop docId cs p.2 (i + 1)
    (p.1 :: q.1, q.2)

/-- `saveChunksToFaiss(chunks)` (success path; the embedding-failure
compensation path reacts to external I/O errors and is not modelled):

1. empty input returns unchanged;
2. `insertDocument` with the source and model of the first chunk (deleting
   the old chunks when the document existed);
3. when the document existed and a vector store is loaded, rebuild it
   without the documents of this source (clearing it entirely when nothing
   remains);
4. insert the chunks into SQLite, collecting their ids;
5. add the chunk documents (with `chunk_id` metadata) to the vector store
   — loading it from disk first when none is in memory — and save it. -/
def saveChunksToFaiss (s : Sys) (chunks : List IngestChunk) : Sys :=
  match chunks with
  | [] => s
  | c0 :: _ =>
    let docRes := insertDocument s.db c0.source c0.embeddingModel
    let s1 : Sys := { s with db := docRes.2 }
    let s2 :=
      if docRes.1.existed then
        match s1.vectorStore with
        | some docs =>
          let remaining := docs.filter (fun d => !(d.source == c0.source))
          if remaining ≠ [] then
            { s1 with vectorStore := some remaining, chunkDisk := some remaining }
          else { s1 with vectorStore := none, chunkDisk := none }
        | none => s1
      else s1
    let q := insertChunksLoop docRes.1.id chunks s2.db 0
    let newDocs := List.zipWith
      (fun (c : IngestChunk) cid => VecDoc.mk c.pageContent c.source c.embeddingModel (some cid) c.page)
      chunks q.1
    match s2.vectorStore with
    | none =>
      match s2.chunkDisk with
      | some diskDocs =>
        { s2 with db := q.2, vectorStore := some (diskDocs ++ newDocs),
                  chunkDisk := some (diskDocs ++ newDocs) }
      | none =>
        { s2 with db := q.2, vectorStore := some newDocs, chunkDisk := some newDocs }
    | some docs =>
      { s2 with db := q.2, vectorStore := some (docs ++ newDocs),
                chunkDisk := some (docs ++ newDocs) }

/-- `deleteDocumentFromStore(sourcePath)`: resolve the document ids (no-op
when the source is unknown), rebuild the chunk vector store without the
vectors of the deleted chunk ids, delete the document rows (cascading to
chunks and mentions), and run the orphan cleanup. -/
def deleteDocumentFromStore (s : Sys) (sourcePath : JStr) : Sys :=
  let docIds := getDocumentIdsBySource s.db sourcePath
  if docIds = [] then s
  else
    let chunkIds := getChunkIdsByDocumentIds s.db docIds
    let s1 :=
      match s.vectorStore with
      | none => s
      | some docs =>
        let remaining := docs.filter (fun (d : VecDoc) =>
          !(match d.chunk_id with
            | some cid => chunkIds.contains cid
            | none => false))
        if remaining ≠ [] then { s with vectorStore := some remaining, chunkDisk := some remaining }
        else { s with vectorStore := none, chunkDisk := none }
    { s1 with db := cleanupOrphanedGraphData (deleteDocumentBySource s1.db sourcePath) }

/-! ## The graph builder (`extractGraphRAGForDocument`, preload.js 336-495,
with `storeExtraction` of the extractor module)

The per-chunk LLM extraction pipeline (prompt, HTTP call, JSON repair,
validation) is modelled by a deterministic oracle
`extract : JStr → Option Extraction` mapping chunk content to the validated
extraction (`none` when the call failed or nothing could be parsed).
Within a batch the mention-count checks all run before any store (the
synchronous prefixes of the parallel promises), and each check only
concerns the chunk being processed, so sequential processing in chunk
order is an exact model of the batched loop. -/

/-- A validated extraction as stored by `storeExtraction`. -/

structure Extraction where
  entities : List ExtractedEntity
  relationships : List ExtractedRelationship
deriving DecidableEq

/-- The per-chunk statistics returned by `storeExtraction`. -/
structure ExtractStats where
  entities : Nat
  relationships : Nat
  mentions : Nat
deriving DecidableEq

/-- The entity loop of `storeExtraction`: upsert each entity, record it in
the name-to-id map (later entries shadow earlier ones, as `Map.set` does),
and insert its mention; count entities and the mentions actually
inserted. -/
def storeEntities (chunkId : Nat) :
    List ExtractedEntity → DB → List (JStr × Nat) → Nat → Nat →
      DB × List (JStr × Nat) × Nat × Nat
  | [], db, emap, ec, mc => (db, emap, ec, mc)
  | e :: rest, db, emap, ec, mc =>
    let p := insertEntity db e.name e.etype e.description
    let q := insertEntityMention p.2 p.1 chunkId (some e.name) 1
    storeEntities chunkId rest q.2 ((e.name, p.1) :: emap) (ec + 1)
      (if q.1.isSome then mc + 1 else mc)

/-- The relationship loop of `storeExtraction`: skip relationships whose
endpoints are missing from the map, otherwise upsert the relationship and
insert its mention. -/
def storeRels (chunkId : Nat) :
    List ExtractedRelationship → DB → List (JStr × Nat) → Nat → DB × Nat
  | [], db, _, rc => (db, rc)
  | r :: rest, db, emap, rc =>
    match emap.find? (fun p => p.1 == r.source), emap.find? (fun p => p.1 == r.target) with
    | some ps, some pt =>
      let p := insertRelationship db ps.2 pt.2 r.rtype r.description 1
      let q := insertRelationshipMention p.2 p.1 chunkId r.description 1
      storeRels chunkId rest q.2 emap (rc + 1)
    | _, _ => storeRels chunkId rest db emap rc

/-- `storeExtraction(db, chunkId, extraction)`. -/
def storeExtraction (db : DB) (chunkId : Nat) (extraction : Extraction) : DB × ExtractStats :=
  let p := storeEntities chunkId extraction.entities db [] 0 0
  let q := storeRels chunkId extraction.relationships p.1 p.2.1 0
  (q.1, ⟨p.2.2.1, q.2, p.2.2.2⟩)

/-- The aggregate report of one `extractGraphRAGForDocument` run: the chunk
total, the chunks skipped because they already had an entity mention (the
sum of the per-batch `skipped` progress counts), and the stored entity /
relationship / mention counts. -/
structure GraphReport where
  totalChunks : Nat
  skippedChunks : Nat
  entities : Nat
  relationships : Nat
  mentions : Nat
deriving DecidableEq

/-- The chunk loop of `extractGraphRAGForDocument`: a chunk with at least
one entity mention is skipped; otherwise the extraction oracle runs and a
successful extraction is stored. -/
def processChunks (extract : JStr → Option Extraction) :
    List ChunkRow → DB → GraphReport → DB × GraphReport
  | [], db, rep => (db, rep)
  | c :: rest, db, rep =>
    if db.entity_mentions.any (fun m => m.chunk_id == c.id) then
      processChunks extract rest db { rep with skippedChunks := rep.skippedChunks + 1 }
    else
      match extract c.content with
      | some ext =>
        let p := storeExtraction db c.id ext
        processChunks extract rest p.1
          { rep with
            entities := rep.entities + p.2.entities,
            relationships := rep.relationships + p.2.relationships,
            mentions := rep.mentions + p.2.mentions }
      | none => processChunks extract rest db rep

/-- The embedder input of `generateEntityEmbeddings`:
`"{name}: {description}"` when a truthy description exists, else the
name. -/
def entityEmbedText (e : EntityRow) : JStr :=
  match e.description with
  | some d => if d ≠ [] then e.name ++ str ": " ++ d else e.name
  | none => e.name

/-- The `entity_embeddings` bookkeeping loop of `generateEntityEmbeddings`:
one row per newly embedded entity, with the dimension reported by the
embedder. -/
def appendEntityEmbeddings (embeddingModel : JStr) (dim : Nat) :
    List EntityRow → DB → DB
  | [], db => db
  | e :: rest, db =>
    appendEntityEmbeddings embeddingModel dim rest
      { db with
        entity_embeddings := db.entity_embeddings ++
          [⟨db.nextEntityEmbeddingId, e.id, embeddingModel, dim⟩],
        nextEntityEmbeddingId := db.nextEntityEmbeddingId + 1 }

/-- `generateEntityEmbeddings(db, embeddingModel)`: embed the entities that
lack an `entity_embeddings` row for the model.  With nothing to embed the
entity store is merely loaded from disk when present; otherwise the new
entity documents are appended to the store loaded from disk (or a fresh
one), the store is saved, and the bookkeeping rows are written.  `dim` is
the embedding dimension reported by the external embedder. -/
def generateEntityEmbeddings (s : Sys) (embeddingModel : JStr) (dim : Nat) : Sys :=
  let missing := s.db.entities.filter (fun e =>
    !(s.db.entity_embeddings.any (fun x =>
        x.entity_id == e.id && x.embedding_model == embeddingModel)))
  if missing = [] then
    match s.entityDisk with
    | some d => { s with entityVectorStore := some d }
    | none => s
  else
    let newDocs := missing.map (fun e =>
      EntityVecDoc.mk (entityEmbedText e) e.id e.name e.etype embeddingModel)
    let store := (match s.entityDisk with | some d => d | none => []) ++ newDocs
    { s with
      db := appendEntityEmbeddings embeddingModel dim missing s.db,
      entityVectorStore := some store,
      entityDisk := some store }

/-- `extractGraphRAGForDocument(source, chatModel)`: resolve the document
(failing — `none` — when the source or its chunks are missing), process the
chunks in order against the extraction oracle, then generate the missing
entity embeddings for the active model. -/
def extractGraphRAGForDocument (s : Sys) (source : JStr)
    (extract : JStr → Option Extraction) (dim : Nat) : Option (Sys × GraphReport) :=
  match getDocumentIdsBySource s.db source with
  | [] => none
  | docId :: _ =>
    let chunks := getChunksByDocumentId s.db docId
    if chunks = [] then none
    else
      let p := processChunks extract chunks s.db ⟨chunks.length, 0, 0, 0, 0⟩
      some (generateEntityEmbeddings { s with db := p.1 } s.activeModel dim, p.2)

/-- A state holding one ingested document whose chunk mentions one entity,
with both vector indices present in memory and on disk. -/
def sC1 : Sys :=
  { db := { DB.empty with
      documents := [⟨1, str "a.txt", str "m"⟩],
      chunks := [⟨1, 1, 0, none, str "Kant wrote"⟩],
      entities := [⟨1, str "Kant", str "TOPIC", none⟩],
      entity_mentions := [⟨1, 1, 1, some (str "Kant"), 1⟩],
      nextDocumentId := 2, nextChunkId := 2, nextEntityId := 2, nextEntityMentionId := 2 },
    activeModel := str "m",
    vectorStore := some [⟨str "Kant wrote", str "a.txt", str "m", some 1, none⟩],
    chunkDisk := some [⟨str "Kant wrote", str "a.txt", str "m", some 1, none⟩],
    entityVectorStore := some [⟨str "Kant", 1, str "Kant", str "TOPIC", str "m"⟩],
    entityDisk := some [⟨str "Kant", 1, str "Kant", str "TOPIC", str "m"⟩] }

/-- A state whose loaded vectors carry the model name `other` while the
active embedder is `m` (reachable: the `embed-model-changed` IPC handler
replaces the embedder without clearing any store). -/
def sC4 : Sys :=
  { db := DB.empty,
    activeModel := str "m",
    vectorStore := some [⟨str "c", str "s.txt", str "other", some 1, none⟩],
    chunkDisk := some [⟨str "c", str "s.txt", str "other", some 1, none⟩],
    entityVectorStore := none,
    entityDisk := none }

/-- At most one document row per `(source, embedding_model)` pair: the
UNIQUE constraint of the documents table. -/
def DocKeyUnique (db : DB) : Prop :=
  ∀ src m : JStr,
    ((db.documents.filter (fun d => d.source == src && d.embedding_model == m)).length ≤ 1)

/-- The specification rows of the chunk insertion loop: consecutive ids
from `nid`, ordinal indices from `i`, the given document id, and the
contents and pages of the ingested chunks in order. -/
def chunkRowsOf (docId : Nat) : List IngestChunk → Nat → Nat → List ChunkRow
  | [], _, _ => []
  | c :: cs, i, nid => ⟨nid, docId, i, c.page, c.pageContent⟩ :: chunkRowsOf docId cs (i + 1) (nid + 1)

/-- A fresh system state: empty database, active model `m`, no vector
stores in memory or on disk. -/
def sysEmpty : Sys := ⟨DB.empty, str "m", none, none, none, none⟩

/-- A state with one document of one chunk and an empty graph. -/
def sC9 : Sys :=
  { db := { DB.empty with
      documents := [⟨1, str "a.txt", str "m"⟩],
      chunks := [⟨1, 1, 0, none, str "x"⟩],
      nextDocumentId := 2, nextChunkId := 2 },
    activeModel := str "m",
    vectorStore := none, chunkDisk := none, entityVectorStore := none, entityDisk := none }

/-- A deterministic extraction pipeline returning one entity for every
chunk. -/
def extC9 : JStr → Option Extraction := fun _ =>
  some ⟨[⟨str "Kant", str "TOPIC", none⟩], []⟩

/-- The state after running the graph build on `sC9` with `extC9`: the
entity, its mention in the single chunk, its embedding bookkeeping row,
and the entity vector store in memory and on disk. -/
def sC9after : Sys :=
  { db := { DB.empty with
      documents := [⟨1, str "a.txt", str "m"⟩],
      chunks := [⟨1, 1, 0, none, str "x"⟩],
      entities := [⟨1, str "Kant", str "TOPIC", none⟩],
      entity_mentions := [⟨1, 1, 1, some (str "Kant"), 1⟩],
      entity_embeddings := [⟨1, 1, str "m", 4⟩],
      nextDocumentId := 2, nextChunkId := 2, nextEntityId := 2, nextEntityMentionId := 2,
      nextEntityEmbeddingId := 2 },
    activeModel := str "m",
    vectorStore := none, chunkDisk := none,
    entityVectorStore := some [⟨str "Kant", 1, str "Kant", str "TOPIC", str "m"⟩],
    entityDisk := some [⟨str "Kant", 1, str "Kant", str "TOPIC", str "m"⟩] }

theorem dedupFirstAux_nodup [DecidableEq α] :
    ∀ (l seen : List α), ((dedupFirstAux l seen).Nodup ∧ ∀ x ∈ dedupFirstAux l seen, x ∉ seen)
  | [], _ => by simp [dedupFirstAux]
  | w :: ws, seen => by
    by_cases hw : w ∈ seen
    · simpa [dedupFirstAux, hw] using dedupFirstAux_nodup ws seen
    · have ih := dedupFirstAux_nodup ws (w :: seen)
      refine ⟨?_, ?_⟩
      · simp only [dedupFirstAux, hw, if_false, List.nodup_cons]
        exact ⟨fun hx => (ih.2 w hx) (by simp), ih.1⟩
      · intro x hx
        simp only [dedupFirstAux, hw, if_false, List.mem_cons] at hx
        rcases hx with rfl | hx
        · exact hw
        · intro hxs
          exact (ih.2 x hx) (by simp [hxs])

theorem dedupFirst_nodup [DecidableEq α] (l : List α) : (dedupFirst l).Nodup :=
  (dedupFirstAux_nodup l []).1

theorem dedupFirstAux_sublist [DecidableEq α] :
    ∀ (l seen : List α), (dedupFirstAux l seen).Sublist l
  | [], _ => by simp [dedupFirstAux]
  | w :: ws, seen => by
    by_cases hw : w ∈ seen
    · simp only [dedupFirstAux, hw, if_true]
      exact (dedupFirstAux_sublist ws seen).cons w
    · simp only [dedupFirstAux, hw, if_false]
      exact (dedupFirstAux_sublist ws (w :: seen)).cons₂ w

theorem dedupFirst_sublist [DecidableEq α] (l : List α) : (dedupFirst l).Sublist l :=
  dedupFirstAux_sublist l []

theorem dedupFirstAux_mem [DecidableEq α] :
    ∀ (l seen : List α) (x : α), x ∈ l → x ∉ seen → x ∈ dedupFirstAux l seen
  | [], _, x => by simp
  | w :: ws, seen, x => by
    intro hx hxs
    by_cases hw : w ∈ seen
    · rcases List.mem_cons.1 hx with rfl | hx'
      · exact absurd hw hxs
      · simpa [dedupFirstAux, hw] using dedupFirstAux_mem ws seen x hx' hxs
    · rcases List.mem_cons.1 hx with rfl | hx'
      · simp [dedupFirstAux, hw]
      · by_cases hxw : x = w
        · simp [dedupFirstAux, hw, hxw]
        · have := dedupFirstAux_mem ws (w :: seen) x hx' (by simp [hxs, hxw])
          simp [dedupFirstAux, hw, this]

theorem dedupFirst_mem [DecidableEq α] (l : List α) (x : α) (hx : x ∈ l) :
    x ∈ dedupFirst l :=
  dedupFirstAux_mem l [] x hx (by simp)

/-- Elements of the cleaned keyword list all have length at least 3. -/
theorem rewriteKeywords_length (reply : JStr) :
    ∀ w ∈ rewriteKeywords reply, 3 ≤ w.length := by
  intro w hw
  have := (dedupFirst_sublist _).mem hw
  exact of_decide_eq_true (List.mem_filter.1 this).2

/-- C7 (amended): for every original query and every raw model reply, the
rewriting falls back to the original query exactly when the trimmed reply
has fewer than 3 characters; otherwise the result is the space-join of the
lowercased whitespace tokens of the trimmed reply of length at least 3 with
first occurrences kept, and that keyword list is duplicate-free with every
token of length at least 3.  (The fallback is decided on the raw trimmed
reply, not on the final cleaned result.) -/
theorem C7_rewrite_correct (query reply : JStr) :
    ((jsTrim reply).length < 3 → rewriteQueryWithLLM query reply = query) ∧
    (3 ≤ (jsTrim reply).length →
      rewriteQueryWithLLM query reply = joinSpace (rewriteKeywords (jsTrim reply)) ∧
      (rewriteKeywords (jsTrim reply)).Nodup ∧
      ∀ w ∈ rewriteKeywords (jsTrim reply), 3 ≤ w.length) := by
  constructor
  · intro h
    simp [rewriteQueryWithLLM, h]
  · intro h
    refine ⟨?_, dedupFirst_nodup _, rewriteKeywords_length _⟩
    simp [rewriteQueryWithLLM, Nat.not_lt.2 h]

/-- Witness for C7: a concrete reply long enough to avoid the fallback is
cleaned to its deduplicated lowercased keywords of length at least 3. -/
theorem C7_rewrite_correct_witness :
    rewriteQueryWithLLM (str "hello") (str "Machine learning machine ai") =
      str "machine learning" := by
  have h := (C7_rewrite_correct (str "hello") (str "Machine learning machine ai")).2 (by decide)
  exact h.1.trans (by decide)

/-- C7 counterexample: the claim says that whenever the final cleaned
result has fewer than 3 characters in total the original query is returned.
For the reply `"a b"` the trimmed reply has exactly 3 characters, so no
fallback happens; every token is then dropped by the length filter and the
function returns the empty string — a final result with fewer than 3
characters that is not the original query. -/
theorem C7_counterexample :
    rewriteQueryWithLLM (str "hello") (str "a b") = str "" ∧
    (rewriteQueryWithLLM (str "hello") (str "a b")).length < 3 ∧
    rewriteQueryWithLLM (str "hello") (str "a b") ≠ str "hello" := by
  refine ⟨by decide, by decide, by decide⟩

theorem mem_insertByScore (x z : FtsRow) :
    ∀ l : List FtsRow, z ∈ insertByScore x l ↔ z = x ∨ z ∈ l
  | [] => by simp [insertByScore]
  | y :: ys => by
    by_cases h : x.score < y.score
    · simp only [insertByScore, h, if_true, List.mem_cons, mem_insertByScore x z ys]
      tauto
    · simp only [insertByScore, h, if_false, List.mem_cons]

theorem mem_sortByScoreDesc (z : FtsRow) :
    ∀ l : List FtsRow, z ∈ sortByScoreDesc l ↔ z ∈ l
  | [] => by simp [sortByScoreDesc]
  | y :: ys => by
    simp [sortByScoreDesc, mem_insertByScore, mem_sortByScoreDesc z ys]

theorem insertByScore_pairwise (a : FtsRow) :
    ∀ L : List FtsRow, L.Pairwise FtsBefore → (∀ b ∈ L, a.id < b.id) →
      (insertByScore a L).Pairwise FtsBefore
  | [], _, _ => by simp [insertByScore, FtsBefore]
  | y :: ys, hp, hid => by
    rcases List.pairwise_cons.1 hp with ⟨hy, hys⟩
    by_cases h : a.score < y.score
    · simp only [insertByScore, h, if_true]
      refine List.pairwise_cons.2 ⟨?_, ?_⟩
      · intro z hz
        rcases (mem_insertByScore a z ys).1 hz with rfl | hz'
        · exact Or.inl h
        · exact hy z hz'
      · exact insertByScore_pairwise a ys hys (fun b hb => hid b (by simp [hb]))
    · simp only [insertByScore, h, if_false]
      refine List.pairwise_cons.2 ⟨?_, hp⟩
      intro z hz
      have hza : z.score ≤ a.score := by
        rcases List.mem_cons.1 hz with rfl | hz'
        · exact Nat.le_of_not_lt h
        · rcases hy z hz' with h1 | h1
          · exact Nat.le_of_lt (Nat.lt_of_lt_of_le h1 (Nat.le_of_not_lt h))
          · exact h1.1 ▸ Nat.le_of_not_lt h
      rcases Nat.lt_or_ge z.score a.score with h2 | h2
      · exact Or.inl h2
      · exact Or.inr ⟨Nat.le_antisymm h2 hza, hid z hz⟩

theorem sortByScoreDesc_pairwise :
    ∀ L : List FtsRow, L.Pairwise (fun a b => a.id < b.id) →
      (sortByScoreDesc L).Pairwise FtsBefore
  | [], _ => by simp [sortByScoreDesc]
  | y :: ys, hp => by
    rcases List.pairwise_cons.1 hp with ⟨hy, hys⟩
    simp only [sortByScoreDesc]
    refine insertByScore_pairwise y (sortByScoreDesc ys) (sortByScoreDesc_pairwise ys hys) ?_
    intro b hb
    exact hy b ((mem_sortByScoreDesc b ys).1 hb)

/-- Candidates carry ascending chunk ids when the chunk table does. -/
theorem ftsCandidates_pairwise_id (db : DB) (keywords : List JStr) (limit : Nat)
    (hids : db.chunks.Pairwise (fun a b => a.id < b.id)) :
    (ftsCandidates db keywords limit).Pairwise (fun a b => a.id < b.id) := by
  refine List.Pairwise.sublist (List.take_sublist _ _) ?_
  refine List.pairwise_filterMap.2 (hids.imp_of_mem ?_)
  intro a b _ _ hab x hx y hy
  have hxa : x.id = a.id := by
    rcases h : db.documents.find? (fun d => d.id == a.document_id) with _ | d <;>
      simp [h] at hx
    rcases hx with ⟨_, hx⟩
    exact hx ▸ rfl
  have hyb : y.id = b.id := by
    rcases h : db.documents.find? (fun d => d.id == b.document_id) with _ | d <;>
      simp [h] at hy
    rcases hy with ⟨_, hy⟩
    exact hy ▸ rfl
  rw [hxa, hyb]; exact hab

theorem mem_ftsCandidates_like (db : DB) (keywords : List JStr) (limit : Nat) :
    ∀ r ∈ ftsCandidates db keywords limit,
      ∃ kw ∈ keywords, likeContains kw (jsToLower r.content) = true := by
  intro r hr
  have hr' := List.take_subset _ _ hr
  rcases List.mem_filterMap.1 hr' with ⟨c, _, hc⟩
  rcases h : db.documents.find? (fun d => d.id == c.document_id) with _ | d <;>
    simp [h] at hc
  rcases hc with ⟨hany, hc⟩
  rcases hany with ⟨kw, hkw, hlike⟩
  exact ⟨kw, hkw, by rw [← hc]; exact hlike⟩

theorem mem_fullTextSearch_candidates (db : DB) (query : JStr) (k : Nat) :
    ∀ r ∈ fullTextSearch db query k,
      r ∈ (ftsCandidates db (ftsKeywords query) k).map (scoreRow (ftsKeywords query)) := by
  intro r hr
  by_cases hkw : ftsKeywords query = []
  · simp [fullTextSearch, hkw] at hr
  · simp only [fullTextSearch, hkw, if_false] at hr
    exact (mem_sortByScoreDesc r _).1 (List.take_subset _ _ hr)

/-- C5 (amended): keyword search lowercases and trims the query, splits it
on whitespace, and returns empty when no tokens remain; otherwise it
considers at most `k * 3` candidate chunks whose lowercased content matches
the SQL LIKE pattern of some token (`%token%`, where `%` and `_` are
wildcards — plain substring containment only for wildcard-free tokens),
scores each candidate by the total number of non-overlapping literal
occurrences of all tokens, and returns at most `k` results in descending
score order, ties broken by ascending chunk id. -/
theorem C5_fullTextSearch_correct (db : DB) (query : JStr) (k : Nat)
    (hids : db.chunks.Pairwise (fun a b => a.id < b.id)) :
    (ftsKeywords query = [] → fullTextSearch db query k = []) ∧
    (fullTextSearch db query k).length ≤ k ∧
    (ftsCandidates db (ftsKeywords query) k).length ≤ k * 3 ∧
    (∀ r ∈ fullTextSearch db query k,
      (∃ kw ∈ ftsKeywords query, likeContains kw (jsToLower r.content) = true) ∧
      r.score = ftsScore (ftsKeywords query) r.content ∧
      r ∈ (ftsCandidates db (ftsKeywords query) k).map (scoreRow (ftsKeywords query))) ∧
    (fullTextSearch db query k).Pairwise FtsBefore := by
  refine ⟨?_, ?_, ?_, ?_, ?_⟩
  · intro h
    simp [fullTextSearch, h]
  · by_cases hkw : ftsKeywords query = []
    · simp [fullTextSearch, hkw]
    · simp only [fullTextSearch, hkw, if_false]
      exact (List.length_take _ _).le.trans (Nat.min_le_left _ _)
  · exact (List.length_take _ _).le.trans (Nat.min_le_left _ _)
  · intro r hr
    have hmem := mem_fullTextSearch_candidates db query k r hr
    rcases List.mem_map.1 hmem with ⟨c, hc, rfl⟩
    refine ⟨?_, rfl, hmem⟩
    have := mem_ftsCandidates_like db (ftsKeywords query) k c hc
    simpa [scoreRow] using this
  · by_cases hkw : ftsKeywords query = []
    · simp [fullTextSearch, hkw]
    · simp only [fullTextSearch, hkw, if_false]
      refine List.Pairwise.sublist (List.take_sublist _ _) ?_
      refine sortByScoreDesc_pairwise _ ?_
      refine List.pairwise_map.2 ?_
      have := ftsCandidates_pairwise_id db (ftsKeywords query) k hids
      exact this.imp (fun h => h)

/-- Witness for C5: on a concrete store with ascending chunk ids the
amended properties hold; the single chunk containing `"ab"` is returned for
the query `"ab"` with score 1. -/
theorem C5_fullTextSearch_correct_witness :
    dbC5.chunks.Pairwise (fun a b => a.id < b.id) ∧
    (fullTextSearch dbC5 (str "ab") 2).length ≤ 2 ∧
    (fullTextSearch dbC5 (str "ab") 2).map (fun r => (r.id, r.score)) = [(1, 1)] := by
  have h := C5_fullTextSearch_correct dbC5 (str "ab") 2 (by decide)
  exact ⟨by decide, h.2.1, by decide⟩

/-- C5 counterexample: the claim restricts candidates to chunks whose
lowercased content contains some query token.  With the query `"a_"` the
single token is `"a_"`; the chunk content `"ab"` does not contain it as a
substring, yet the SQL LIKE filter treats `_` as a single-character
wildcard, so `fullTextSearch` returns that chunk (with score 0). -/
theorem C5_counterexample :
    (fullTextSearch dbC5 (str "a_") 5).map (fun r => (r.id, r.score)) = [(1, 0)] ∧
    (∀ r ∈ fullTextSearch dbC5 (str "a_") 5,
      ∀ kw ∈ ftsKeywords (str "a_"), containsSub (jsToLower r.content) kw = false) ∧
    ftsKeywords (str "a_") ≠ [] := by
  refine ⟨by decide, by decide, by decide⟩

theorem mergeEmb_length : ∀ (emb : List SearchResult) (seen : List JStr),
    (mergeEmb emb seen).1.length ≤ emb.length
  | [], _ => by simp [mergeEmb]
  | r :: rs, seen => by
    by_cases h : hybridKey r ∈ seen
    · simp only [mergeEmb, h, if_true]
      exact (mergeEmb_length rs seen).trans (Nat.le_succ _)
    · simp only [mergeEmb, h, if_false, List.length_cons]
      exact Nat.succ_le_succ (mergeEmb_length rs (hybridKey r :: seen))

theorem mergeEmb_mem : ∀ (emb : List SearchResult) (seen : List JStr),
    ∀ x ∈ (mergeEmb emb seen).1, x ∈ emb ∧ hybridKey x ∉ seen
  | [], _ => by simp [mergeEmb]
  | r :: rs, seen => by
    intro x hx
    by_cases h : hybridKey r ∈ seen
    · simp only [mergeEmb, h, if_true] at hx
      have := mergeEmb_mem rs seen x hx
      exact ⟨by simp [this.1], this.2⟩
    · simp only [mergeEmb, h, if_false, List.mem_cons] at hx
      rcases hx with rfl | hx
      · exact ⟨by simp, h⟩
      · have := mergeEmb_mem rs (hybridKey r :: seen) x hx
        exact ⟨by simp [this.1], fun hs => this.2 (by simp [hs])⟩

theorem mergeEmb_seen : ∀ (emb : List SearchResult) (seen : List JStr),
    ∀ a, a ∈ (mergeEmb emb seen).2 ↔ a ∈ seen ∨ ∃ e ∈ emb, hybridKey e = a
  | [], _ => by simp [mergeEmb]
  | r :: rs, seen => by
    intro a
    by_cases h : hybridKey r ∈ seen
    · simp only [mergeEmb, h, if_true, mergeEmb_seen rs seen a, List.mem_cons]
      constructor
      · rintro (ha | ⟨e, he, rfl⟩)
        · exact Or.inl ha
        · exact Or.inr ⟨e, Or.inr he, rfl⟩
      · rintro (ha | ⟨e, rfl | he, rfl⟩)
        · exact Or.inl ha
        · exact Or.inl h
        · exact Or.inr ⟨e, he, rfl⟩
    · simp only [mergeEmb, h, if_false, mergeEmb_seen rs (hybridKey r :: seen) a,
        List.mem_cons]
      constructor
      · rintro ((rfl | ha) | ⟨e, he, rfl⟩)
        · exact Or.inr ⟨r, Or.inl rfl, rfl⟩
        · exact Or.inl ha
        · exact Or.inr ⟨e, Or.inr he, rfl⟩
      · rintro (ha | ⟨e, rfl | he, rfl⟩)
        · exact Or.inl (Or.inr ha)
        · exact Or.inl (Or.inl rfl)
        · exact Or.inr ⟨e, he, rfl⟩

theorem mergeEmb_keys_nodup : ∀ (emb : List SearchResult) (seen : List JStr),
    ((mergeEmb emb seen).1.map hybridKey).Nodup
  | [], _ => by simp [mergeEmb]
  | r :: rs, seen => by
    by_cases h : hybridKey r ∈ seen
    · simp only [mergeEmb, h, if_true]
      exact mergeEmb_keys_nodup rs seen
    · simp only [mergeEmb, h, if_false, List.map_cons, List.nodup_cons]
      refine ⟨?_, mergeEmb_keys_nodup rs (hybridKey r :: seen)⟩
      intro hk
      rcases List.mem_map.1 hk with ⟨x, hx, hkey⟩
      exact (mergeEmb_mem rs (hybridKey r :: seen) x hx).2 (by simp [hkey])

theorem mergeFt_mem (k : Nat) : ∀ (ft : List SearchResult) (seen : List JStr) (len : Nat),
    ∀ x ∈ mergeFt k ft seen len, x ∈ ft ∧ hybridKey x ∉ seen
  | [], _, _ => by simp [mergeFt]
  | r :: rs, seen, len => by
    intro x hx
    by_cases h : hybridKey r ∉ seen ∧ len < k * 2
    · simp only [mergeFt, if_pos h, List.mem_cons] at hx
      rcases hx with rfl | hx
      · exact ⟨by simp, h.1⟩
      · have := mergeFt_mem k rs (hybridKey r :: seen) (len + 1) x hx
        exact ⟨by simp [this.1], fun hs => this.2 (by simp [hs])⟩
    · simp only [mergeFt, if_neg h] at hx
      have := mergeFt_mem k rs seen len x hx
      exact ⟨by simp [this.1], this.2⟩

theorem mergeFt_keys_nodup (k : Nat) : ∀ (ft : List SearchResult) (seen : List JStr) (len : Nat),
    ((mergeFt k ft seen len).map hybridKey).Nodup
  | [], _, _ => by simp [mergeFt]
  | r :: rs, seen, len => by
    by_cases h : hybridKey r ∉ seen ∧ len < k * 2
    · simp only [mergeFt, if_pos h, List.map_cons, List.nodup_cons]
      refine ⟨?_, mergeFt_keys_nodup k rs (hybridKey r :: seen) (len + 1)⟩
      intro hk
      rcases List.mem_map.1 hk with ⟨x, hx, hkey⟩
      exact (mergeFt_mem k rs (hybridKey r :: seen) (len + 1) x hx).2 (by simp [hkey])
    · simp only [mergeFt, if_neg h]
      exact mergeFt_keys_nodup k rs seen len

theorem mergeFt_length (k : Nat) : ∀ (ft : List SearchResult) (seen : List JStr) (len : Nat),
    (mergeFt k ft seen len).length ≤ k * 2 - len
  | [], _, _ => by simp [mergeFt]
  | r :: rs, seen, len => by
    by_cases h : hybridKey r ∉ seen ∧ len < k * 2
    · simp only [mergeFt, if_pos h, List.length_cons]
      have := mergeFt_length k rs (hybridKey r :: seen) (len + 1)
      omega
    · simp only [mergeFt, if_neg h]
      exact (mergeFt_length k rs seen len).trans (by omega)

theorem mergeEmb_covers : ∀ (emb : List SearchResult) (seen : List JStr) (e : SearchResult),
    e ∈ emb → hybridKey e ∉ seen →
      ∃ x ∈ (mergeEmb emb seen).1, hybridKey x = hybridKey e
  | [], _, e => by simp
  | r :: rs, seen, e => by
    intro he hs
    by_cases h : hybridKey r ∈ seen
    · rcases List.mem_cons.1 he with rfl | he'
      · exact absurd h hs
      · rcases mergeEmb_covers rs seen e he' hs with ⟨x, hx, hk⟩
        refine ⟨x, ?_, hk⟩
        simp [mergeEmb, h, hx]
    · rcases List.mem_cons.1 he with rfl | he'
      · refine ⟨e, ?_, rfl⟩
        simp [mergeEmb, h]
      · by_cases hek : hybridKey e = hybridKey r
        · refine ⟨r, ?_, hek.symm⟩
          simp [mergeEmb, h]
        · rcases mergeEmb_covers rs (hybridKey r :: seen) e he' (by simp [hs, hek]) with ⟨x, hx, hk⟩
          refine ⟨x, ?_, hk⟩
          simp only [mergeEmb, h, if_false, List.mem_cons]
          exact Or.inr hx

/-- C6: the hybrid merge deduplicates by the `source`-plus-50-character
key, keeps embedding hits in preference to fulltext hits with the same key,
caps the merged list at `k * 2` entries (given that the embedding
sub-search returns at most `k` hits), and returns the first `k` merged
results; every kept embedding hit precedes every kept fulltext hit, every
embedding key is represented by an embedding hit, and kept fulltext hits
share no key with any embedding hit. -/
theorem C6_hybrid_merge_correct (emb ft : List SearchResult) (k : Nat)
    (hlen : emb.length ≤ k) :
    searchFromStoreHybrid emb ft k = (hybridMerged emb ft k).take k ∧
    (hybridMerged emb ft k).length ≤ k * 2 ∧
    ((hybridMerged emb ft k).map hybridKey).Nodup ∧
    (∀ x ∈ (mergeEmb emb []).1, x ∈ emb) ∧
    (∀ e ∈ emb, ∃ x ∈ (mergeEmb emb []).1, hybridKey x = hybridKey e) ∧
    (∀ f ∈ mergeFt k ft (mergeEmb emb []).2 (mergeEmb emb []).1.length,
      f ∈ ft ∧ ∀ e ∈ emb, hybridKey e ≠ hybridKey f) := by
  refine ⟨rfl, ?_, ?_, ?_, ?_, ?_⟩
  · have h1 : (mergeEmb emb []).1.length ≤ k := (mergeEmb_length emb []).trans hlen
    have h2 := mergeFt_length k ft (mergeEmb emb []).2 (mergeEmb emb []).1.length
    simp only [hybridMerged, List.length_append]
    omega
  · simp only [hybridMerged, List.map_append]
    refine List.Nodup.append (mergeEmb_keys_nodup emb []) (mergeFt_keys_nodup k ft _ _) ?_
    intro a ha hb
    rcases List.mem_map.1 ha with ⟨x, hx, rfl⟩
    rcases List.mem_map.1 hb with ⟨y, hy, hxy⟩
    have hy2 := (mergeFt_mem k ft _ _ y hy).2
    refine hy2 ?_
    rw [hxy]
    exact (mergeEmb_seen emb [] (hybridKey x)).2 (Or.inr ⟨x, (mergeEmb_mem emb [] x hx).1, rfl⟩)
  · exact fun x hx => (mergeEmb_mem emb [] x hx).1
  · exact fun e he => mergeEmb_covers emb [] e he (by simp)
  · intro f hf
    have h := mergeFt_mem k ft (mergeEmb emb []).2 (mergeEmb emb []).1.length f hf
    refine ⟨h.1, ?_⟩
    intro e he heq
    refine h.2 ?_
    rw [← heq]
    exact (mergeEmb_seen emb [] (hybridKey e)).2 (Or.inr ⟨e, he, rfl⟩)

/-- Witness for C6: with one embedding hit and one fulltext hit at `k = 1`
the embedding sub-search bound holds and the merge returns the first merged
result. -/
theorem C6_hybrid_merge_correct_witness :
    ([(⟨str "alpha", str "s1", some 1⟩ : SearchResult)].length ≤ 1) ∧
    searchFromStoreHybrid [⟨str "alpha", str "s1", some 1⟩] [⟨str "beta", str "s2", some 2⟩] 1 =
      (hybridMerged [⟨str "alpha", str "s1", some 1⟩] [⟨str "beta", str "s2", some 2⟩] 1).take 1 ∧
    searchFromStoreHybrid [⟨str "alpha", str "s1", some 1⟩] [⟨str "beta", str "s2", some 2⟩] 1 =
      [⟨str "alpha", str "s1", some 1⟩] := by
  exact ⟨by decide, (C6_hybrid_merge_correct _ _ 1 (by decide)).1, by decide⟩

theorem dedupByChunkId_sublist : ∀ (l : List SearchResult) (seen : List Nat),
    (dedupByChunkId l seen).Sublist l
  | [], _ => by simp [dedupByChunkId]
  | r :: rs, seen => by
    rcases h : r.chunk_id with _ | cid
    · simpa [dedupByChunkId, h] using (dedupByChunkId_sublist rs seen).cons₂ r
    · by_cases hc : cid ∈ seen
      · simpa [dedupByChunkId, h, hc] using (dedupByChunkId_sublist rs seen).cons r
      · simpa [dedupByChunkId, h, hc] using (dedupByChunkId_sublist rs (cid :: seen)).cons₂ r

theorem dedupByChunkId_id_unseen : ∀ (l : List SearchResult) (seen : List Nat),
    ∀ x ∈ dedupByChunkId l seen, ∀ cid, x.chunk_id = some cid → cid ∉ seen
  | [], _ => by simp [dedupByChunkId]
  | r :: rs, seen => by
    intro x hx cid hcid
    rcases h : r.chunk_id with _ | c
    · simp only [dedupByChunkId, h, List.mem_cons] at hx
      rcases hx with rfl | hx
      · rw [h] at hcid; cases hcid
      · exact dedupByChunkId_id_unseen rs seen x hx cid hcid
    · by_cases hc : c ∈ seen
      · simp only [dedupByChunkId, h, hc, if_true] at hx
        exact dedupByChunkId_id_unseen rs seen x hx cid hcid
      · simp only [dedupByChunkId, h, hc, if_false, List.mem_cons] at hx
        rcases hx with rfl | hx
        · rw [h] at hcid
          cases hcid
          exact hc
        · intro hs
          exact dedupByChunkId_id_unseen rs (c :: seen) x hx cid hcid (by simp [hs])

theorem dedupByChunkId_pairwise : ∀ (l : List SearchResult) (seen : List Nat),
    (dedupByChunkId l seen).Pairwise
      (fun x y => ∀ cid, x.chunk_id = some cid → y.chunk_id ≠ some cid)
  | [], _ => by simp [dedupByChunkId]
  | r :: rs, seen => by
    rcases h : r.chunk_id with _ | c
    · simp only [dedupByChunkId, h]
      refine List.pairwise_cons.2 ⟨?_, dedupByChunkId_pairwise rs seen⟩
      intro y _ cid hcid
      rw [h] at hcid; cases hcid
    · by_cases hc : c ∈ seen
      · simp only [dedupByChunkId, h, hc, if_true]
        exact dedupByChunkId_pairwise rs seen
      · simp only [dedupByChunkId, h, hc, if_false]
        refine List.pairwise_cons.2 ⟨?_, dedupByChunkId_pairwise rs (c :: seen)⟩
        intro y hy cid hcid hy2
        rw [h] at hcid
        cases hcid
        exact dedupByChunkId_id_unseen rs (c :: seen) y hy c hy2 (by simp)

theorem dedupByChunkId_keeps_none : ∀ (l : List SearchResult) (seen : List Nat),
    ∀ x ∈ l, x.chunk_id = none → x ∈ dedupByChunkId l seen
  | [], _ => by simp
  | r :: rs, seen => by
    intro x hx hnone
    rcases List.mem_cons.1 hx with rfl | hx'
    · simp [dedupByChunkId, hnone]
    · rcases h : r.chunk_id with _ | c
      · simp only [dedupByChunkId, h, List.mem_cons]
        exact Or.inr (dedupByChunkId_keeps_none rs seen x hx' hnone)
      · by_cases hc : c ∈ seen
        · simp only [dedupByChunkId, h, hc, if_true]
          exact dedupByChunkId_keeps_none rs seen x hx' hnone
        · simp only [dedupByChunkId, h, hc, if_false, List.mem_cons]
          exact Or.inr (dedupByChunkId_keeps_none rs (c :: seen) x hx' hnone)

theorem dedupByChunkId_find? : ∀ (l : List SearchResult) (seen : List Nat) (cid : Nat),
    cid ∉ seen →
      (dedupByChunkId l seen).find? (fun r => r.chunk_id == some cid) =
        l.find? (fun r => r.chunk_id == some cid)
  | [], _, _ => by simp [dedupByChunkId]
  | r :: rs, seen, cid => by
    intro hcid
    rcases h : r.chunk_id with _ | c
    · by_cases hr : r.chunk_id == some cid
      · rw [h] at hr; cases hr
      · simp only [dedupByChunkId, h]
        rw [List.find?_cons_of_neg _ (by rw [h]; simp),
          List.find?_cons_of_neg _ (by rw [h]; simp)]
        exact dedupByChunkId_find? rs seen cid hcid
    · by_cases hc : c ∈ seen
      · have hne : c ≠ cid := fun hcc => hcid (hcc ▸ hc)
        simp only [dedupByChunkId, h, hc, if_true]
        rw [List.find?_cons_of_neg _ (by rw [h]; simp [hne])]
        exact dedupByChunkId_find? rs seen cid hcid
      · by_cases hcc : c = cid
        · subst hcc
          simp only [dedupByChunkId, h, hc, if_false]
          rw [List.find?_cons_of_pos _ (by rw [h]; simp),
            List.find?_cons_of_pos _ (by rw [h]; simp)]
        · simp only [dedupByChunkId, h, hc, if_false]
          rw [List.find?_cons_of_neg _ (by rw [h]; simp [hcc]),
            List.find?_cons_of_neg _ (by rw [h]; simp [hcc])]
          refine dedupByChunkId_find? rs (c :: seen) cid ?_
          intro hmem
          rcases List.mem_cons.1 hmem with hx | hx
          · exact hcc hx.symm
          · exact hcid hx

/-- C10: the unified search deduplicates the concatenated chunk-RAG and
GraphRAG results by chunk id, keeping the first occurrence of every id
(results without an id are always kept), preserves the insertion order (the
output is a sublist of the input), and returns at most `k * 2` results —
up to twice the requested `k`, as the concrete conjunct at `k = 1` shows. -/
theorem C10_searchFromStore_dedup (cs gs : List SearchResult) (k : Nat) :
    (searchFromStore cs gs k).length ≤ k * 2 ∧
    (searchFromStore cs gs k).Sublist (cs ++ gs) ∧
    (searchFromStore cs gs k).Pairwise
      (fun x y => ∀ cid, x.chunk_id = some cid → y.chunk_id ≠ some cid) ∧
    (∀ cid, (dedupByChunkId (cs ++ gs) []).find? (fun r => r.chunk_id == some cid) =
      (cs ++ gs).find? (fun r => r.chunk_id == some cid)) ∧
    (∀ x ∈ cs ++ gs, x.chunk_id = none → x ∈ dedupByChunkId (cs ++ gs) []) ∧
    (searchFromStore [⟨str "a", str "s", some 1⟩] [⟨str "b", str "t", some 2⟩] 1).length
      = 2 := by
  refine ⟨?_, ?_, ?_, ?_, ?_, by decide⟩
  · exact (List.length_take _ _).le.trans (Nat.min_le_left _ _)
  · exact (List.take_sublist _ _).trans (dedupByChunkId_sublist _ [])
  · exact List.Pairwise.sublist (List.take_sublist _ _) (dedupByChunkId_pairwise _ [])
  · exact fun cid => dedupByChunkId_find? (cs ++ gs) [] cid (by simp)
  · exact fun x hx h => dedupByChunkId_keeps_none (cs ++ gs) [] x hx h

theorem relLookupValid_iff (es : List ExtractedEntity) (r : ExtractedRelationship) :
    relLookupValid es r = true ↔
      ∃ st tt, entityTypeLookup es r.source = some st ∧
        entityTypeLookup es r.target = some tt ∧
        isValidRelationship r.rtype st tt = true := by
  unfold relLookupValid
  rcases h1 : entityTypeLookup es r.source with _ | st <;>
    rcases h2 : entityTypeLookup es r.target with _ | tt <;> simp

/-- C8: an entity is kept exactly when it has a (non-empty) name and a type
in the closed entity ontology; a relationship is kept exactly when it has a
source, a target and a type in the closed relationship ontology, both
endpoint names resolve among the kept entities, and the resolved
(source-type, target-type) pair is permitted for that relationship type;
all other items are dropped (the outputs are sublists of the inputs), and
every resolved endpoint type belongs to a kept entity with that name. -/
theorem C8_validation_correct (es : List ExtractedEntity) (rs : List ExtractedRelationship) :
    (∀ e, e ∈ (parseExtractionResult es rs).1 ↔
      (e ∈ es ∧ e.name ≠ [] ∧ e.etype ∈ ENTITY_TYPES)) ∧
    (∀ r, r ∈ (parseExtractionResult es rs).2 ↔
      (r ∈ rs ∧ r.source ≠ [] ∧ r.target ≠ [] ∧ r.rtype ∈ RELATIONSHIP_TYPES ∧
        ∃ st tt, entityTypeLookup es r.source = some st ∧
          entityTypeLookup es r.target = some tt ∧
          isValidRelationship r.rtype st tt = true)) ∧
    (∀ n st, entityTypeLookup es n = some st →
      ∃ e ∈ (parseExtractionResult es rs).1, e.name = n ∧ e.etype = st) ∧
    (parseExtractionResult es rs).1.Sublist es ∧
    (parseExtractionResult es rs).2.Sublist rs := by
  have hontype : ∀ t ∈ RELATIONSHIP_TYPES, t ≠ ([] : JStr) := by decide
  refine ⟨?_, ?_, ?_, List.filter_sublist _, List.filter_sublist _⟩
  · intro e
    simp only [parseExtractionResult, validEntitiesOf, List.mem_filter, Bool.and_eq_true,
      decide_eq_true_eq, and_assoc]
  · intro r
    simp only [parseExtractionResult, validRelationshipsOf, List.mem_filter, Bool.and_eq_true,
      decide_eq_true_eq, relLookupValid_iff, and_assoc]
    constructor
    · rintro ⟨h1, hs, ht, hty0, hmem, hk⟩
      exact ⟨h1, hs, ht, hmem, hk⟩
    · rintro ⟨h1, hs, ht, hmem, hk⟩
      exact ⟨h1, hs, ht, hontype r.rtype hmem, hmem, hk⟩
  · intro n st hl
    rcases Option.map_eq_some'.1 hl with ⟨e, he, rfl⟩
    have hmem : e ∈ validEntitiesOf es := by
      have := List.mem_of_find?_eq_some he
      exact (List.mem_reverse).1 this
    have hname : e.name = n := by
      have := List.find?_some he
      simpa using this
    exact ⟨e, hmem, hname, rfl⟩

/-- C1 (amended): for every state and model name, `setEmbedderModel(m,
force = true)` deletes the chunk vector index on disk (and drops the
loaded one), deletes all rows from Chunks and Documents, and sets the
active model, so that a subsequent `getStoredSources()` returns the empty
list; the entity vector index on disk, the loaded entity store, and the
entities and relationships tables are left untouched, and
`cleanupOrphanedGraphData` is not invoked. -/
theorem C1_setEmbedderModel_force (s : Sys) (name : JStr) :
    (setEmbedderModel s name true).1 = SetModelResult.success ∧
    (setEmbedderModel s name true).2.activeModel = name ∧
    (setEmbedderModel s name true).2.vectorStore = none ∧
    (setEmbedderModel s name true).2.chunkDisk = none ∧
    (setEmbedderModel s name true).2.db.documents = [] ∧
    (setEmbedderModel s name true).2.db.chunks = [] ∧
    (∀ b, getStoredSourcesPreload (setEmbedderModel s name true).2 b = []) ∧
    (setEmbedderModel s name true).2.entityDisk = s.entityDisk ∧
    (setEmbedderModel s name true).2.entityVectorStore = s.entityVectorStore ∧
    (setEmbedderModel s name true).2.db.entities = s.db.entities ∧
    (setEmbedderModel s name true).2.db.relationships = s.db.relationships := by
  simp [setEmbedderModel, getStoredSourcesPreload, DB.getStoredSources, dedupFirst,
    dedupFirstAux]

/-- C1 counterexample: after `setEmbedderModel("m2", force = true)` on a
state with an entity vector index on disk and a mentioned entity, the
entity index is still on disk (the claim says it is deleted) and the
entity `Kant` survives with zero mentions (the claim says
`cleanup_orphans` leaves the graph orphan-free), even though the chunk
index, chunks and documents are gone. -/
theorem C1_counterexample :
    (setEmbedderModel sC1 (str "m2") true).2.entityDisk =
      some [⟨str "Kant", 1, str "Kant", str "TOPIC", str "m"⟩] ∧
    (setEmbedderModel sC1 (str "m2") true).2.db.entities =
      [⟨1, str "Kant", str "TOPIC", none⟩] ∧
    (setEmbedderModel sC1 (str "m2") true).2.db.entity_mentions = [] ∧
    (setEmbedderModel sC1 (str "m2") true).2.db.documents = [] ∧
    (setEmbedderModel sC1 (str "m2") true).2.chunkDisk = none := by
  refine ⟨by decide, by decide, by decide, by decide, by decide⟩

/-- C4 (amended): with `force = false` and a new name that differs from the
active model after `:latest` normalization, if the set of embedding-model
names on existing vectors is non-empty and does not contain the new name,
`setEmbedderModel` returns the confirmation request carrying exactly that
set and the new name, and the state is unchanged. -/
theorem C4_confirmation_required (s : Sys) (name : JStr)
    (hnorm : normalizeModelName s.activeModel ≠ normalizeModelName name)
    (hex : getExistingModels s ≠ [])
    (hmem : name ∉ getExistingModels s) :
    setEmbedderModel s name false =
      (SetModelResult.confirmationRequired (getExistingModels s) name, s) := by
  unfold setEmbedderModel
  rw [if_neg (fun h => hnorm h.1), if_pos ⟨rfl, hex, hmem⟩]

/-- Witness for C4: on `sC4` with the new name `m2` all three hypotheses
hold and the call returns the confirmation request unchanged. -/
theorem C4_confirmation_required_witness :
    normalizeModelName sC4.activeModel ≠ normalizeModelName (str "m2") ∧
    getExistingModels sC4 ≠ [] ∧
    (str "m2") ∉ getExistingModels sC4 ∧
    setEmbedderModel sC4 (str "m2") false =
      (SetModelResult.confirmationRequired (getExistingModels sC4) (str "m2"), sC4) :=
  ⟨by decide, by decide, by decide,
    C4_confirmation_required sC4 (str "m2") (by decide) (by decide) (by decide)⟩

/-- C4 counterexample: the claim quantifies over every state and new model
name.  In `sC4` the existing-vector models are `[other]`, which is
non-empty and does not contain the new name `m`; but `m` normalizes to the
active model, so the first guard returns plain success without any
confirmation request (and without touching state). -/
theorem C4_counterexample :
    getExistingModels sC4 = [str "other"] ∧
    (str "m") ∉ getExistingModels sC4 ∧
    (setEmbedderModel sC4 (str "m") false).1 = SetModelResult.success ∧
    (setEmbedderModel sC4 (str "m") false).1 ≠
      SetModelResult.confirmationRequired (getExistingModels sC4) (str "m") ∧
    (setEmbedderModel sC4 (str "m") false).2 = sC4 := by
  refine ⟨by decide, by decide, by decide, by decide, by decide⟩

/-- The orphan cleanup always leaves the graph orphan-free: its first
statement can only delete entities whose id has no mention, so a kept
entity keeps its mention; its second statement keeps exactly the
relationships with a surviving mention, and a relationship deleted there
had none, so no surviving mention is cascaded away. -/
theorem cleanupOrphanedGraphData_orphanFree (db : DB) :
    (∀ e ∈ (cleanupOrphanedGraphData db).entities,
      ∃ m ∈ (cleanupOrphanedGraphData db).entity_mentions, m.entity_id = e.id) ∧
    (∀ r ∈ (cleanupOrphanedGraphData db).relationships,
      ∃ m ∈ (cleanupOrphanedGraphData db).relationship_mentions, m.relationship_id = r.id) := by
  constructor
  · intro e he
    simp only [cleanupOrphanedGraphData, List.mem_filter] at he ⊢
    obtain ⟨he1, he2⟩ := he
    rcases List.any_eq_true.1 he2 with ⟨m, hm, hmid⟩
    have hmide : m.entity_id = e.id := by simpa using hmid
    refine ⟨m, ⟨hm, ?_⟩, hmide⟩
    simp only [hmide, Bool.not_eq_true']
    refine List.any_eq_false.2 ?_
    intro e2 _
    simp [he2]
  · intro r hr
    simp only [cleanupOrphanedGraphData, List.mem_filter] at hr ⊢
    obtain ⟨⟨hr1, hr2⟩, hr3⟩ := hr
    rcases List.any_eq_true.1 hr3 with ⟨m, hm, hmid⟩
    obtain ⟨hm1, hm2⟩ := List.mem_filter.1 hm
    have hmidr : m.relationship_id = r.id := by simpa using hmid
    refine ⟨m, ⟨⟨hm1, hm2⟩, ?_⟩, hmidr⟩
    simp only [hmidr, Bool.not_eq_true']
    refine List.any_eq_false.2 ?_
    intro r2 hr2'
    simp [hr3]

/-- When the source resolves to at least one document, the database part of
`deleteDocumentFromStore` is the orphan cleanup of the cascading document
deletion (the vector-store rebuild between the two touches no tables). -/
theorem deleteDocumentFromStore_db_eq (s : Sys) (sourcePath : JStr)
    (hdoc : getDocumentIdsBySource s.db sourcePath ≠ []) :
    (deleteDocumentFromStore s sourcePath).db =
      cleanupOrphanedGraphData (deleteDocumentBySource s.db sourcePath) := by
  unfold deleteDocumentFromStore
  rw [if_neg hdoc]
  cases hvs : s.vectorStore
  · rfl
  · simp only [hvs]
    split <;> rfl

/-- C2: after `deleteDocumentFromStore` on a source that resolves to a
document, no surviving entity or relationship has zero mention rows; the
chunks of the deleted documents are gone, and no surviving entity or
relationship mention points at any chunk of a deleted document. -/
theorem C2_delete_orphanFree (s : Sys) (sourcePath : JStr)
    (hdoc : getDocumentIdsBySource s.db sourcePath ≠ []) :
    (∀ e ∈ (deleteDocumentFromStore s sourcePath).db.entities,
      ∃ m ∈ (deleteDocumentFromStore s sourcePath).db.entity_mentions, m.entity_id = e.id) ∧
    (∀ r ∈ (deleteDocumentFromStore s sourcePath).db.relationships,
      ∃ m ∈ (deleteDocumentFromStore s sourcePath).db.relationship_mentions,
        m.relationship_id = r.id) ∧
    (∀ c ∈ (deleteDocumentFromStore s sourcePath).db.chunks,
      ∀ d ∈ s.db.documents, d.source = sourcePath → c.document_id ≠ d.id) ∧
    (∀ m ∈ (deleteDocumentFromStore s sourcePath).db.entity_mentions,
      ∀ c ∈ s.db.chunks,
        (∃ d ∈ s.db.documents, d.source = sourcePath ∧ c.document_id = d.id) →
          m.chunk_id ≠ c.id) ∧
    (∀ m ∈ (deleteDocumentFromStore s sourcePath).db.relationship_mentions,
      ∀ c ∈ s.db.chunks,
        (∃ d ∈ s.db.documents, d.source = sourcePath ∧ c.document_id = d.id) →
          m.chunk_id ≠ c.id) := by
  rw [deleteDocumentFromStore_db_eq s sourcePath hdoc]
  refine ⟨(cleanupOrphanedGraphData_orphanFree _).1,
    (cleanupOrphanedGraphData_orphanFree _).2, ?_, ?_, ?_⟩
  · intro c hc d hd hsrc hcd
    have hc' : c ∈ (deleteDocumentBySource s.db sourcePath).chunks := hc
    simp only [deleteDocumentBySource, List.mem_filter, Bool.not_eq_true'] at hc'
    have := List.any_eq_false.1 hc'.2 d hd
    simp [hsrc, hcd] at this
  · intro m hm c hc ⟨d, hd, hsrc, hcd⟩ hmc
    have hm1 : m ∈ (deleteDocumentBySource s.db sourcePath).entity_mentions :=
      (List.mem_filter.1 hm).1
    simp only [deleteDocumentBySource, List.mem_filter, Bool.not_eq_true'] at hm1
    have := List.any_eq_false.1 hm1.2 c hc
    rw [hmc] at this
    simp only [beq_self_eq_true, Bool.and_true, Bool.not_eq_true', Bool.not_eq_true] at this
    have h2 := List.any_eq_false.1 this d hd
    simp [hsrc, hcd] at h2
  · intro m hm c hc ⟨d, hd, hsrc, hcd⟩ hmc
    have hm1 : m ∈ (deleteDocumentBySource s.db sourcePath).relationship_mentions := by
      have := (List.mem_filter.1 hm).1
      exact (List.mem_filter.1 this).1
    simp only [deleteDocumentBySource, List.mem_filter, Bool.not_eq_true'] at hm1
    have := List.any_eq_false.1 hm1.2 c hc
    rw [hmc] at this
    simp only [beq_self_eq_true, Bool.and_true, Bool.not_eq_true', Bool.not_eq_true] at this
    have h2 := List.any_eq_false.1 this d hd
    simp [hsrc, hcd] at h2

/-- Witness for C2: deleting the only document of `sC1` resolves it, and
the surviving graph is orphan-free (here empty). -/
theorem C2_delete_orphanFree_witness :
    getDocumentIdsBySource sC1.db (str "a.txt") ≠ [] ∧
    (∀ e ∈ (deleteDocumentFromStore sC1 (str "a.txt")).db.entities,
      ∃ m ∈ (deleteDocumentFromStore sC1 (str "a.txt")).db.entity_mentions,
        m.entity_id = e.id) :=
  ⟨by decide, (C2_delete_orphanFree sC1 (str "a.txt") (by decide)).1⟩

theorem find?_eq_head?_filter : ∀ (l : List α) (p : α → Bool), l.find? p = (l.filter p).head?
  | [], _ => rfl
  | x :: xs, p => by
    by_cases h : p x
    · rw [List.find?_cons_of_pos _ h, List.filter_cons_of_pos h]
      rfl
    · rw [List.find?_cons_of_neg _ (by simpa using h), List.filter_cons_of_neg (by simpa using h)]
      exact find?_eq_head?_filter xs p

theorem eq_singleton_of_mem_of_length_le {l : List α} {d : α} (hm : d ∈ l)
    (hl : l.length ≤ 1) : l = [d] := by
  cases l with
  | nil => cases hm
  | cons x xs =>
    cases xs with
    | nil =>
      rcases List.mem_singleton.1 hm with rfl
      rfl
    | cons y ys => simp at hl

/-- `insertDocument` leaves exactly one row for its `(source, model)` pair,
carrying the returned id. -/
theorem insertDocument_filter (db : DB) (src m : JStr) (hwf : DocKeyUnique db) :
    ∃ d : DocumentRow,
      (insertDocument db src m).2.documents.filter
        (fun dd => dd.source == src && dd.embedding_model == m) = [d] ∧
      d.id = (insertDocument db src m).1.id := by
  cases hf : db.documents.find? (fun d => d.source == src && d.embedding_model == m) with
  | none =>
    refine ⟨⟨db.nextDocumentId, src, m⟩, ?_, by simp [insertDocument, hf]⟩
    simp only [insertDocument, hf, List.filter_append]
    rw [List.filter_eq_nil_iff.2 (fun x hx => by simpa using List.find?_eq_none.1 hf x hx)]
    simp
  | some d =>
    refine ⟨d, ?_, ?_⟩
    · have hpd := List.find?_some hf
      have hmem : d ∈ db.documents.filter
          (fun dd => dd.source == src && dd.embedding_model == m) :=
        List.mem_filter.2 ⟨List.mem_of_find?_eq_some hf, hpd⟩
      have := eq_singleton_of_mem_of_length_le hmem (hwf src m)
      simpa [insertDocument, hf, deleteChunksByDocumentId] using this
    · simp [insertDocument, hf]

theorem insertChunksLoop_spec (docId : Nat) :
    ∀ (cs : List IngestChunk) (db : DB) (i : Nat),
      (insertChunksLoop docId cs db i).2.documents = db.documents ∧
      (insertChunksLoop docId cs db i).2.chunks =
        db.chunks ++ chunkRowsOf docId cs i db.nextChunkId
  | [], db, i => by simp [insertChunksLoop, chunkRowsOf]
  | c :: cs, db, i => by
    have ih := insertChunksLoop_spec docId cs (insertChunk db docId i c.pageContent c.page).2 (i + 1)
    constructor
    · simpa [insertChunksLoop, insertChunk] using ih.1
    · have h2 := ih.2
      simp only [insertChunk] at h2
      simp [insertChunksLoop, insertChunk, chunkRowsOf, h2]

theorem chunkRowsOf_maps (docId : Nat) :
    ∀ (cs : List IngestChunk) (i nid : Nat),
      (chunkRowsOf docId cs i nid).map (fun c => c.content) = cs.map (fun c => c.pageContent) ∧
      (chunkRowsOf docId cs i nid).map (fun c => c.page) = cs.map (fun c => c.page) ∧
      (chunkRowsOf docId cs i nid).map (fun c => c.chunk_index) = List.range' i cs.length ∧
      ∀ r ∈ chunkRowsOf docId cs i nid, r.document_id = docId
  | [], i, nid => by simp [chunkRowsOf]
  | c :: cs, i, nid => by
    have ih := chunkRowsOf_maps docId cs (i + 1) (nid + 1)
    refine ⟨?_, ?_, ?_, ?_⟩
    · simp [chunkRowsOf, ih.1]
    · simp [chunkRowsOf, ih.2.1]
    · simp [chunkRowsOf, ih.2.2.1, List.range']
    · intro r hr
      rcases List.mem_cons.1 hr with rfl | hr'
      · rfl
      · exact ih.2.2.2 r hr'

/-- The database reached by `saveChunksToFaiss` on a non-empty chunk list:
`insertDocument` followed by the chunk insertion loop (the vector-store
branches do not touch the database). -/
theorem saveChunksToFaiss_db (s : Sys) (c0 : IngestChunk) (t : List IngestChunk) :
    (saveChunksToFaiss s (c0 :: t)).db =
      (insertChunksLoop (insertDocument s.db c0.source c0.embeddingModel).1.id (c0 :: t)
        (insertDocument s.db c0.source c0.embeddingModel).2 0).2 := by
  unfold saveChunksToFaiss
  dsimp only
  repeat' split
  all_goals rfl

/-- C3: re-ingest replaces a document.  Starting from a store satisfying
the UNIQUE(source, embedding_model) constraint, ingesting a chunk list for
source `src` under model `m` and then ingesting a second chunk list for the
same pair leaves: the second `insertDocument` reporting `existed = true`;
exactly one document row for the pair, with the same id after both calls;
and the chunk set of that document equal, in order, to the second ingest
(contents, pages, and ordinal indices 0, 1, ...). -/
theorem C3_reingest (s0 : Sys) (c1 c2 : IngestChunk) (t1 t2 : List IngestChunk) (src m : JStr)
    (hwf : DocKeyUnique s0.db)
    (hc1s : c1.source = src) (hc1m : c1.embeddingModel = m)
    (hc2s : c2.source = src) (hc2m : c2.embeddingModel = m) :
    (insertDocument (saveChunksToFaiss s0 (c1 :: t1)).db src m).1.existed = true ∧
    ∃ did : Nat,
      ((saveChunksToFaiss s0 (c1 :: t1)).db.documents.filter
          (fun dd => dd.source == src && dd.embedding_model == m)).map (fun dd => dd.id) =
        [did] ∧
      ((saveChunksToFaiss (saveChunksToFaiss s0 (c1 :: t1)) (c2 :: t2)).db.documents.filter
          (fun dd => dd.source == src && dd.embedding_model == m)).map (fun dd => dd.id) =
        [did] ∧
      ((saveChunksToFaiss (saveChunksToFaiss s0 (c1 :: t1)) (c2 :: t2)).db.chunks.filter
          (fun c => c.document_id == did)).map (fun c => c.content) =
        (c2 :: t2).map (fun c => c.pageContent) ∧
      ((saveChunksToFaiss (saveChunksToFaiss s0 (c1 :: t1)) (c2 :: t2)).db.chunks.filter
          (fun c => c.document_id == did)).map (fun c => c.page) =
        (c2 :: t2).map (fun c => c.page) ∧
      ((saveChunksToFaiss (saveChunksToFaiss s0 (c1 :: t1)) (c2 :: t2)).db.chunks.filter
          (fun c => c.document_id == did)).map (fun c => c.chunk_index) =
        List.range (c2 :: t2).length := by
  have h1 := saveChunksToFaiss_db s0 c1 t1
  rw [hc1s, hc1m] at h1
  obtain ⟨hdocs1, hchunks1⟩ :=
    insertChunksLoop_spec (insertDocument s0.db src m).1.id (c1 :: t1)
      (insertDocument s0.db src m).2 0
  have hd1 : (saveChunksToFaiss s0 (c1 :: t1)).db.documents =
      (insertDocument s0.db src m).2.documents := by
    rw [h1]; exact hdocs1
  obtain ⟨d, hflt, hdid⟩ := insertDocument_filter s0.db src m hwf
  have hflt1 : (saveChunksToFaiss s0 (c1 :: t1)).db.documents.filter
      (fun dd => dd.source == src && dd.embedding_model == m) = [d] := by
    rw [hd1, hflt]
  have hfind : (saveChunksToFaiss s0 (c1 :: t1)).db.documents.find?
      (fun dd => dd.source == src && dd.embedding_model == m) = some d := by
    rw [find?_eq_head?_filter, hflt1]; rfl
  have hex : insertDocument (saveChunksToFaiss s0 (c1 :: t1)).db src m =
      (⟨d.id, true⟩, deleteChunksByDocumentId (saveChunksToFaiss s0 (c1 :: t1)).db d.id) := by
    simp [insertDocument, hfind]
  have h2 := saveChunksToFaiss_db (saveChunksToFaiss s0 (c1 :: t1)) c2 t2
  rw [hc2s, hc2m, hex] at h2
  obtain ⟨hdocs2, hchunks2⟩ :=
    insertChunksLoop_spec d.id (c2 :: t2)
      (deleteChunksByDocumentId (saveChunksToFaiss s0 (c1 :: t1)).db d.id) 0
  have hd2 : (saveChunksToFaiss (saveChunksToFaiss s0 (c1 :: t1)) (c2 :: t2)).db.documents =
      (saveChunksToFaiss s0 (c1 :: t1)).db.documents := by
    rw [h2]
    exact hdocs2
  have hch2 : (saveChunksToFaiss (saveChunksToFaiss s0 (c1 :: t1)) (c2 :: t2)).db.chunks =
      (deleteChunksByDocumentId (saveChunksToFaiss s0 (c1 :: t1)).db d.id).chunks ++
        chunkRowsOf d.id (c2 :: t2) 0
          (deleteChunksByDocumentId (saveChunksToFaiss s0 (c1 :: t1)).db d.id).nextChunkId := by
    rw [h2]
    exact hchunks2
  have hdelnil : (deleteChunksByDocumentId (saveChunksToFaiss s0 (c1 :: t1)).db d.id).chunks.filter
      (fun c => c.document_id == d.id) = [] := by
    refine List.filter_eq_nil_iff.2 ?_
    intro c hc
    have := (List.mem_filter.1 hc).2
    simp only [Bool.not_eq_true'] at this
    simp [this]
  obtain ⟨hmapc, hmapp, hmapi, hmemdoc⟩ :=
    chunkRowsOf_maps d.id (c2 :: t2) 0
      (deleteChunksByDocumentId (saveChunksToFaiss s0 (c1 :: t1)).db d.id).nextChunkId
  have hrowsall : (chunkRowsOf d.id (c2 :: t2) 0
      (deleteChunksByDocumentId (saveChunksToFaiss s0 (c1 :: t1)).db d.id).nextChunkId).filter
        (fun c => c.document_id == d.id) =
      chunkRowsOf d.id (c2 :: t2) 0
        (deleteChunksByDocumentId (saveChunksToFaiss s0 (c1 :: t1)).db d.id).nextChunkId := by
    refine List.filter_eq_self.2 ?_
    intro c hc
    simp [hmemdoc c hc]
  have hfilter2 : (saveChunksToFaiss (saveChunksToFaiss s0 (c1 :: t1)) (c2 :: t2)).db.chunks.filter
      (fun c => c.document_id == d.id) =
      chunkRowsOf d.id (c2 :: t2) 0
        (deleteChunksByDocumentId (saveChunksToFaiss s0 (c1 :: t1)).db d.id).nextChunkId := by
    rw [hch2, List.filter_append, hdelnil, hrowsall, List.nil_append]
  refine ⟨by rw [hex], d.id, ?_, ?_, ?_, ?_, ?_⟩
  · rw [hflt1]; simp [hdid]
  · rw [hd2, hflt1]; simp [hdid]
  · rw [hfilter2, hmapc]
  · rw [hfilter2, hmapp]
  · rw [hfilter2, hmapi, List.range_eq_range']

/-- Witness for C3: ingesting two chunks for `a.pdf` and then one chunk
for the same source makes the second `insertDocument` report
`existed = true`, and the document ends with exactly the second ingest's
single chunk. -/
theorem C3_reingest_witness :
    DocKeyUnique sysEmpty.db ∧
    (insertDocument
        (saveChunksToFaiss sysEmpty
          (⟨str "alpha", str "a.pdf", some 1, str "m"⟩ ::
            [⟨str "beta", str "a.pdf", some 1, str "m"⟩])).db
        (str "a.pdf") (str "m")).1.existed = true ∧
    ((saveChunksToFaiss
        (saveChunksToFaiss sysEmpty
          (⟨str "alpha", str "a.pdf", some 1, str "m"⟩ ::
            [⟨str "beta", str "a.pdf", some 1, str "m"⟩]))
        (⟨str "gamma", str "a.pdf", some 2, str "m"⟩ :: [])).db.chunks.filter
      (fun c => c.document_id == 1)).map (fun c => c.content) = [str "gamma"] :=
  ⟨fun src m => by simp [sysEmpty, DB.empty],
   (C3_reingest sysEmpty ⟨str "alpha", str "a.pdf", some 1, str "m"⟩
      ⟨str "gamma", str "a.pdf", some 2, str "m"⟩
      [⟨str "beta", str "a.pdf", some 1, str "m"⟩] [] (str "a.pdf") (str "m")
      (fun src m => by simp [sysEmpty, DB.empty]) rfl rfl rfl rfl).1,
   by decide⟩

/-- C9 counterexample: on a document whose single chunk yields a failed
extraction (`none` from the LLM pipeline), `extractGraphRAGForDocument`
returns the state unchanged with `skipped = 0`; the document has then been
processed by build_graph, yet a second run (the identical call, since the
state is unchanged) again skips no chunk — `skipped = 0 ≠ 1 = total` —
because the chunk still has no entity mention and is re-extracted. -/
theorem C9_counterexample :
    extractGraphRAGForDocument sC9 (str "a.txt") (fun _ => none) 4 =
      some (sC9, ⟨1, 0, 0, 0, 0⟩) ∧
    (GraphReport.mk 1 0 0 0 0).skippedChunks ≠ (GraphReport.mk 1 0 0 0 0).totalChunks := by
  exact ⟨by decide, by decide⟩

theorem insertEntity_docs_chunks (db : DB) (n t : JStr) (d : Option JStr) :
    (insertEntity db n t d).2.documents = db.documents ∧
    (insertEntity db n t d).2.chunks = db.chunks := by
  unfold insertEntity
  rcases hf : db.entities.find? (fun e => e.name == n && e.etype == t) with _ | e <;>
    simp only [hf]
  · exact ⟨trivial, trivial⟩
  · by_cases hd : jsTruthy d = true
    · rw [if_pos hd]; exact ⟨rfl, rfl⟩
    · rw [if_neg hd]; exact ⟨rfl, rfl⟩

theorem insertEntityMention_docs_chunks (db : DB) (eid cid : Nat) (mt : Option JStr) (cf : Rat) :
    (insertEntityMention db eid cid mt cf).2.documents = db.documents ∧
    (insertEntityMention db eid cid mt cf).2.chunks = db.chunks := by
  unfold insertEntityMention
  by_cases h : (db.entity_mentions.any fun m => m.entity_id == eid && m.chunk_id == cid) = true
  · rw [if_pos h]; exact ⟨rfl, rfl⟩
  · rw [if_neg h]; exact ⟨rfl, rfl⟩

theorem insertRelationship_docs_chunks (db : DB) (sid tid : Nat) (ty : JStr)
    (d : Option JStr) (w : Rat) :
    (insertRelationship db sid tid ty d w).2.documents = db.documents ∧
    (insertRelationship db sid tid ty d w).2.chunks = db.chunks := by
  unfold insertRelationship
  rcases hf : db.relationships.find? (fun r =>
      r.source_entity_id == sid && r.target_entity_id == tid &&
        r.relationship_type == ty) with _ | r <;>
    simp only [hf]
  · exact ⟨trivial, trivial⟩
  · by_cases hd : jsTruthy d = true ∨ w ≠ 1
    · rw [if_pos hd]; exact ⟨rfl, rfl⟩
    · rw [if_neg hd]; exact ⟨rfl, rfl⟩

theorem insertRelationshipMention_docs_chunks (db : DB) (rid cid : Nat) (cx : Option JStr)
    (cf : Rat) :
    (insertRelationshipMention db rid cid cx cf).2.documents = db.documents ∧
    (insertRelationshipMention db rid cid cx cf).2.chunks = db.chunks := by
  unfold insertRelationshipMention
  by_cases h : (db.relationship_mentions.any fun m =>
      m.relationship_id == rid && m.chunk_id == cid) = true
  · rw [if_pos h]; exact ⟨rfl, rfl⟩
  · rw [if_neg h]; exact ⟨rfl, rfl⟩

theorem storeEntities_docs_chunks (chunkId : Nat) :
    ∀ (es : List ExtractedEntity) (db : DB) (emap : List (JStr × Nat)) (ec mc : Nat),
      (storeEntities chunkId es db emap ec mc).1.documents = db.documents ∧
      (storeEntities chunkId es db emap ec mc).1.chunks = db.chunks
  | [], db, emap, ec, mc => ⟨rfl, rfl⟩
  | e :: rest, db, emap, ec, mc => by
    have h1 := insertEntity_docs_chunks db e.name e.etype e.description
    have h2 := insertEntityMention_docs_chunks (insertEntity db e.name e.etype e.description).2
      (insertEntity db e.name e.etype e.description).1 chunkId (some e.name) 1
    have ih := storeEntities_docs_chunks chunkId rest
      (insertEntityMention (insertEntity db e.name e.etype e.description).2
        (insertEntity db e.name e.etype e.description).1 chunkId (some e.name) 1).2
      ((e.name, (insertEntity db e.name e.etype e.description).1) :: emap) (ec + 1)
      (if (insertEntityMention (insertEntity db e.name e.etype e.description).2
        (insertEntity db e.name e.etype e.description).1 chunkId (some e.name) 1).1.isSome
       then mc + 1 else mc)
    unfold storeEntities
    exact ⟨ih.1.trans (h2.1.trans h1.1), ih.2.trans (h2.2.trans h1.2)⟩

theorem storeRels_docs_chunks (chunkId : Nat) :
    ∀ (rs : List ExtractedRelationship) (db : DB) (emap : List (JStr × Nat)) (rc : Nat),
      (storeRels chunkId rs db emap rc).1.documents = db.documents ∧
      (storeRels chunkId rs db emap rc).1.chunks = db.chunks
  | [], db, emap, rc => ⟨rfl, rfl⟩
  | r :: rest, db, emap, rc => by
    unfold storeRels
    rcases hs : emap.find? (fun p => p.1 == r.source) with _ | ps <;> simp only [hs]
    · exact storeRels_docs_chunks chunkId rest db emap rc
    · rcases ht : emap.find? (fun p => p.1 == r.target) with _ | pt <;> simp only [ht]
      · exact storeRels_docs_chunks chunkId rest db emap rc
      · have h1 := insertRelationship_docs_chunks db ps.2 pt.2 r.rtype r.description 1
        have h2 := insertRelationshipMention_docs_chunks
          (insertRelationship db ps.2 pt.2 r.rtype r.description 1).2
          (insertRelationship db ps.2 pt.2 r.rtype r.description 1).1 chunkId r.description 1
        have ih := storeRels_docs_chunks chunkId rest
          (insertRelationshipMention (insertRelationship db ps.2 pt.2 r.rtype r.description 1).2
            (insertRelationship db ps.2 pt.2 r.rtype r.description 1).1 chunkId
            r.description 1).2 emap (rc + 1)
        exact ⟨ih.1.trans (h2.1.trans h1.1), ih.2.trans (h2.2.trans h1.2)⟩

theorem storeExtraction_docs_chunks (db : DB) (chunkId : Nat) (ext : Extraction) :
    (storeExtraction db chunkId ext).1.documents = db.documents ∧
    (storeExtraction db chunkId ext).1.chunks = db.chunks := by
  unfold storeExtraction
  have h1 := storeEntities_docs_chunks chunkId ext.entities db [] 0 0
  have h2 := storeRels_docs_chunks chunkId ext.relationships
    (storeEntities chunkId ext.entities db [] 0 0).1
    (storeEntities chunkId ext.entities db [] 0 0).2.1 0
  exact ⟨h2.1.trans h1.1, h2.2.trans h1.2⟩

theorem processChunks_docs_chunks (extract : JStr → Option Extraction) :
    ∀ (cl : List ChunkRow) (db : DB) (rep : GraphReport),
      (processChunks extract cl db rep).1.documents = db.documents ∧
      (processChunks extract cl db rep).1.chunks = db.chunks
  | [], db, rep => ⟨rfl, rfl⟩
  | c :: rest, db, rep => by
    unfold processChunks
    by_cases h : (db.entity_mentions.any fun m => m.chunk_id == c.id) = true
    · rw [if_pos h]
      exact processChunks_docs_chunks extract rest db
        { rep with skippedChunks := rep.skippedChunks + 1 }
    · rw [if_neg h]
      rcases hx : extract c.content with _ | ext <;> simp only [hx]
      · exact processChunks_docs_chunks extract rest db rep
      · have h1 := storeExtraction_docs_chunks db c.id ext
        have ih := processChunks_docs_chunks extract rest (storeExtraction db c.id ext).1
          { rep with
            entities := rep.entities + (storeExtraction db c.id ext).2.entities,
            relationships := rep.relationships + (storeExtraction db c.id ext).2.relationships,
            mentions := rep.mentions + (storeExtraction db c.id ext).2.mentions }
        exact ⟨ih.1.trans h1.1, ih.2.trans h1.2⟩

theorem appendEntityEmbeddings_spec (em : JStr) (dim : Nat) :
    ∀ (l : List EntityRow) (db : DB),
      (appendEntityEmbeddings em dim l db).documents = db.documents ∧
      (appendEntityEmbeddings em dim l db).chunks = db.chunks ∧
      (appendEntityEmbeddings em dim l db).entities = db.entities ∧
      (appendEntityEmbeddings em dim l db).entity_mentions = db.entity_mentions ∧
      (∀ x ∈ db.entity_embeddings, x ∈ (appendEntityEmbeddings em dim l db).entity_embeddings) ∧
      (∀ e ∈ l, ∃ x ∈ (appendEntityEmbeddings em dim l db).entity_embeddings,
        x.entity_id = e.id ∧ x.embedding_model = em)
  | [], db => ⟨rfl, rfl, rfl, rfl, fun x hx => hx, by simp⟩
  | e :: rest, db => by
    have ih := appendEntityEmbeddings_spec em dim rest
      { db with
        entity_embeddings := db.entity_embeddings ++
          [⟨db.nextEntityEmbeddingId, e.id, em, dim⟩],
        nextEntityEmbeddingId := db.nextEntityEmbeddingId + 1 }
    unfold appendEntityEmbeddings
    refine ⟨ih.1, ih.2.1, ih.2.2.1, ih.2.2.2.1, ?_, ?_⟩
    · intro x hx
      exact ih.2.2.2.2.1 x (by simp [hx])
    · intro e2 he2
      rcases List.mem_cons.1 he2 with rfl | he2'
      · exact ⟨⟨db.nextEntityEmbeddingId, e2.id, em, dim⟩, ih.2.2.2.2.1 _ (by simp), rfl, rfl⟩
      · exact ih.2.2.2.2.2 e2 he2'

theorem generateEntityEmbeddings_pres (s : Sys) (em : JStr) (dim : Nat) :
    (generateEntityEmbeddings s em dim).db.documents = s.db.documents ∧
    (generateEntityEmbeddings s em dim).db.chunks = s.db.chunks ∧
    (generateEntityEmbeddings s em dim).db.entities = s.db.entities ∧
    (generateEntityEmbeddings s em dim).db.entity_mentions = s.db.entity_mentions ∧
    (generateEntityEmbeddings s em dim).activeModel = s.activeModel := by
  unfold generateEntityEmbeddings
  by_cases hm : (s.db.entities.filter fun e =>
      !(s.db.entity_embeddings.any fun x =>
        x.entity_id == e.id && x.embedding_model == em)) = []
  · rw [if_pos hm]
    cases hd : s.entityDisk <;> simp only [hd] <;>
      exact ⟨trivial, trivial, trivial, trivial, trivial⟩
  · rw [if_neg hm]
    have h := appendEntityEmbeddings_spec em dim
      (s.db.entities.filter fun e =>
        !(s.db.entity_embeddings.any fun x =>
          x.entity_id == e.id && x.embedding_model == em)) s.db
    exact ⟨h.1, h.2.1, h.2.2.1, h.2.2.2.1, rfl⟩

theorem generateEntityEmbeddings_covered (s : Sys) (em : JStr) (dim : Nat) :
    ∀ e ∈ (generateEntityEmbeddings s em dim).db.entities,
      ((generateEntityEmbeddings s em dim).db.entity_embeddings.any
        (fun x => x.entity_id == e.id && x.embedding_model == em)) = true := by
  unfold generateEntityEmbeddings
  by_cases hm : (s.db.entities.filter fun e =>
      !(s.db.entity_embeddings.any fun x =>
        x.entity_id == e.id && x.embedding_model == em)) = []
  · rw [if_pos hm]
    have hall := List.filter_eq_nil_iff.1 hm
    cases hd : s.entityDisk <;> simp only [hd] <;>
      · intro e he
        have := hall e he
        simpa using this
  · rw [if_neg hm]
    intro e he
    have hspec := appendEntityEmbeddings_spec em dim
      (s.db.entities.filter fun e =>
        !(s.db.entity_embeddings.any fun x =>
          x.entity_id == e.id && x.embedding_model == em)) s.db
    rw [hspec.2.2.1] at he
    by_cases hhas : (s.db.entity_embeddings.any fun x =>
        x.entity_id == e.id && x.embedding_model == em) = true
    · rcases List.any_eq_true.1 hhas with ⟨x, hx, hpx⟩
      exact List.any_eq_true.2 ⟨x, hspec.2.2.2.2.1 x hx, hpx⟩
    · have he2 : e ∈ s.db.entities.filter (fun e =>
          !(s.db.entity_embeddings.any fun x =>
            x.entity_id == e.id && x.embedding_model == em)) :=
        List.mem_filter.2 ⟨he, by simp [hhas]⟩
      rcases hspec.2.2.2.2.2 e he2 with ⟨x, hx, hxe, hxm⟩
      exact List.any_eq_true.2 ⟨x, hx, by simp [hxe, hxm]⟩

theorem processChunks_all_skip (extract : JStr → Option Extraction) :
    ∀ (cl : List ChunkRow) (db : DB) (rep : GraphReport),
      (∀ c ∈ cl, (db.entity_mentions.any fun m => m.chunk_id == c.id) = true) →
      processChunks extract cl db rep =
        (db, { rep with skippedChunks := rep.skippedChunks + cl.length })
  | [], db, rep, _ => by simp [processChunks]
  | c :: rest, db, rep, h => by
    unfold processChunks
    rw [if_pos (h c (by simp))]
    rw [processChunks_all_skip extract rest db _ (fun c2 hc2 => h c2 (by simp [hc2]))]
    have heq : rep.skippedChunks + 1 + rest.length = rep.skippedChunks + (c :: rest).length := by
      simp; omega
    simp [heq]

/-- C9 (amended): if a run of `extractGraphRAGForDocument` produced state
`s1` and afterwards every chunk of the document carries at least one entity
mention, then a second run with the same (deterministic) extraction
pipeline succeeds, skips every chunk — the skipped count equals the chunk
total — extracts nothing (zero entity, relationship and mention counts in
the report), and leaves the whole database, in particular the entity,
relationship and mention tables, unchanged.  (Chunks that gained no mention
in the first run are re-extracted instead of skipped; see the
counterexample.) -/
theorem C9_build_graph_idempotent (s : Sys) (source : JStr)
    (extract : JStr → Option Extraction) (dim : Nat) (s1 : Sys) (rep1 : GraphReport)
    (h1 : extractGraphRAGForDocument s source extract dim = some (s1, rep1))
    (hm : ∀ did ∈ getDocumentIdsBySource s1.db source,
        ∀ c ∈ getChunksByDocumentId s1.db did,
          (s1.db.entity_mentions.any fun m => m.chunk_id == c.id) = true) :
    ∃ s2 rep2, extractGraphRAGForDocument s1 source extract dim = some (s2, rep2) ∧
      s2.db = s1.db ∧
      rep2.skippedChunks = rep2.totalChunks ∧
      rep2.entities = 0 ∧ rep2.relationships = 0 ∧ rep2.mentions = 0 := by
  unfold extractGraphRAGForDocument at h1
  rcases hdoc : getDocumentIdsBySource s.db source with _ | ⟨did, rest⟩ <;>
    rw [hdoc] at h1 <;> dsimp only at h1
  · cases h1
  by_cases hch : getChunksByDocumentId s.db did = []
  · rw [if_pos hch] at h1; cases h1
  rw [if_neg hch] at h1
  have hpair := Option.some.inj h1
  have hs1 : generateEntityEmbeddings
      { s with db := (processChunks extract (getChunksByDocumentId s.db did) s.db
        ⟨(getChunksByDocumentId s.db did).length, 0, 0, 0, 0⟩).1 } s.activeModel dim = s1 :=
    congrArg Prod.fst hpair
  -- preservation across the first run
  have hpc := processChunks_docs_chunks extract (getChunksByDocumentId s.db did) s.db
    ⟨(getChunksByDocumentId s.db did).length, 0, 0, 0, 0⟩
  have hgen := generateEntityEmbeddings_pres
    { s with db := (processChunks extract (getChunksByDocumentId s.db did) s.db
      ⟨(getChunksByDocumentId s.db did).length, 0, 0, 0, 0⟩).1 } s.activeModel dim
  rw [hs1] at hgen
  have hdocs1 : s1.db.documents = s.db.documents := hgen.1.trans hpc.1
  have hchunks1 : s1.db.chunks = s.db.chunks := hgen.2.1.trans hpc.2
  have hact1 : s1.activeModel = s.activeModel := hgen.2.2.2.2
  have hdoc1 : getDocumentIdsBySource s1.db source = did :: rest := by
    unfold getDocumentIdsBySource
    rw [hdocs1]
    exact hdoc
  have hch1 : getChunksByDocumentId s1.db did = getChunksByDocumentId s.db did := by
    unfold getChunksByDocumentId
    rw [hdocs1, hchunks1]
  -- entity-embedding coverage carried over from the first run
  have hcov : ∀ e ∈ s1.db.entities,
      (s1.db.entity_embeddings.any fun x =>
        x.entity_id == e.id && x.embedding_model == s1.activeModel) = true := by
    rw [hact1]
    intro e he
    rw [← hs1] at he ⊢
    exact generateEntityEmbeddings_covered _ s.activeModel dim e he
  -- the second run
  unfold extractGraphRAGForDocument
  rw [hdoc1]
  dsimp only
  rw [if_neg (by rw [hch1]; exact hch)]
  rw [processChunks_all_skip extract (getChunksByDocumentId s1.db did) s1.db
    ⟨(getChunksByDocumentId s1.db did).length, 0, 0, 0, 0⟩ (hm did (by rw [hdoc1]; simp))]
  have hmiss : (s1.db.entities.filter fun e =>
      !(s1.db.entity_embeddings.any fun x =>
        x.entity_id == e.id && x.embedding_model == s1.activeModel)) = [] := by
    refine List.filter_eq_nil_iff.2 ?_
    intro e he
    simp [hcov e he]
  refine ⟨_, _, rfl, ?_, by simp, rfl, rfl, rfl⟩
  show (generateEntityEmbeddings { s1 with db := s1.db } s1.activeModel dim).db = s1.db
  unfold generateEntityEmbeddings
  rw [if_pos hmiss]
  cases hd : s1.entityDisk <;> simp only [hd]

/-- Witness for C9: after a first build in which the single chunk gained a
mention, the second build skips every chunk and leaves the database
unchanged. -/
theorem C9_build_graph_idempotent_witness :
    extractGraphRAGForDocument sC9 (str "a.txt") extC9 4 =
      some (sC9after, ⟨1, 0, 1, 0, 1⟩) ∧
    (∃ s2 rep2, extractGraphRAGForDocument sC9after (str "a.txt") extC9 4 = some (s2, rep2) ∧
      s2.db = sC9after.db ∧ rep2.skippedChunks = rep2.totalChunks ∧
      rep2.entities = 0 ∧ rep2.relationships = 0 ∧ rep2.mentions = 0) :=
  ⟨by decide,
   C9_build_graph_idempotent sC9 (str "a.txt") extC9 4 sC9after ⟨1, 0, 1, 0, 1⟩
     (by decide) (by decide)⟩

